import Mathlib

/-!
A shallow embedding of the `ts-batch` micro-batching engine
(`MicroBatcher.ts`, the revision using `stringToBatchId` and
`batchIdToBatchIndex`).  JavaScript message values are modelled by
`JSV`; JS `Map`s by association lists with get/set/delete; `uuidv4` by
an injective counter-indexed string (global uniqueness and
non-emptiness are the only properties the engine relies on).  The
asynchronous parts (the `setInterval` timer, `processBatch`'s promise,
`stop()`'s drain loop) are modelled as labelled transitions (`Step`): a
timer tick may fire whenever an interval is armed, a batch handed to
`batchProcessFn` is recorded in `processedLog`, and its later
settlement is the `settle` transition.
-/

/-- The `Status` enum of `MicroBatcher.ts`. -/
inductive Status where
  | QUEUED | BATCHED | RESOLVED | REJECTED | DECLINED | NOTFOUND
deriving DecidableEq, Repr, Inhabited

/-- JavaScript message values, as far as the engine inspects them:
`null`/`undefined` (rejected by `add`), the falsy primitives `0`,
`NaN`, `""`, `false` (relevant to the `!message` check in `status`),
other numbers, strings and booleans, and flat string-valued objects
(enough to model structural keys via `JSON.stringify`). -/
inductive JSV where
  | null
  | undef
  | nan
  | num (n : Int)
  | str (s : String)
  | bool (b : Bool)
  | obj (fields : List (String × String))
deriving DecidableEq, Repr, Inhabited

/-- JS truthiness of a message value (`!message` is its negation). -/
def JSV.truthy : JSV → Bool
  | .null | .undef | .nan => false
  | .num n => n != 0
  | .str s => s != ""
  | .bool b => b
  | .obj _ => true

/-- `JSON.stringify` on the flat objects of `JSV` (escaping of exotic
characters inside field data is not modelled; on these acyclic values
it never throws). -/
def jsonStringify (fields : List (String × String)) : String :=
  "\x7b" ++
    String.intercalate "," (fields.map (fun p => "\"" ++ p.1 ++ "\":\"" ++ p.2 ++ "\"")) ++
    "\x7d"

/-- JS `toString` on message values. -/
def jsvToString : JSV → String
  | .null => "null"
  | .undef => "undefined"
  | .nan => "NaN"
  | .num n => toString n
  | .str s => s
  | .bool b => if b then "true" else "false"
  | .obj fields => jsonStringify fields

/-- `MicroBatcher.messageToKey`: `null`/`undefined` get fixed keys;
otherwise the user `hashFn` applies if provided, objects are
`JSON.stringify`ed, and other values are stringified. -/
def messageToKey (hashFn : Option (JSV → String)) (message : JSV) : String :=
  match message with
  | .null => "null"
  | .undef => "undefined"
  | m =>
    match hashFn with
    | some f => f m
    | none =>
      match m with
      | .obj fields => jsonStringify fields
      | m => jsvToString m

/-- `uuidv4` from `util.ts`, modelled as the n-th fresh identifier: the
engine relies only on the ids it draws being globally unique (and a
real UUID string is never empty, hence the leading character). -/
def uuidv4 (n : Nat) : String := String.mk ('b' :: List.replicate n 'u')

/-- JS `Map.get` on an association-list model of `Map` (absent key
reads as `undefined`, i.e. `none`). -/
def mget {α : Type} : List (String × α) → String → Option α
  | [], _ => none
  | p :: m, k => if p.1 = k then some p.2 else mget m k

/-- JS `Map.delete`. -/
def mdelete {α : Type} : List (String × α) → String → List (String × α)
  | [], _ => []
  | p :: m, k => if p.1 = k then mdelete m k else p :: mdelete m k

/-- JS `Map.set` (replaces any existing binding of the key). -/
def mset {α : Type} (m : List (String × α)) (k : String) (v : α) : List (String × α) :=
  (k, v) :: mdelete m k

/-- Reading slot `i` of the `batches` array: an out-of-range index and
an empty slot both read as JS `undefined`. -/
def listGetO {α : Type} (l : List (Option α)) (i : Nat) : Option α :=
  (l.get? i).join

/-- `Array.prototype.slice(0, e)` with a JS (possibly negative) end
index. -/
def jsSliceTo {α : Type} (l : List α) (e : Int) : List α :=
  l.take (if 0 ≤ e then e.toNat else l.length - min l.length e.natAbs)

/-- `Array.prototype.slice(s)` with a JS (possibly negative) start
index. -/
def jsSliceFrom {α : Type} (l : List α) (s : Int) : List α :=
  l.drop (if 0 ≤ s then s.toNat else l.length - min l.length s.natAbs)

/-- The `Batch<T>` record of `MicroBatcher.ts`. -/
structure Batch where
  messages : List JSV
  batchId : String
  status : Status
deriving DecidableEq, Repr, Inhabited

/-- The merged `MicroBatcherConfig<T>`.  `batchProcessFn` is an opaque
external collaborator; all the engine observes of it is whether the
returned promise resolves, so it is modelled as `List JSV → Bool`
(wrapped in `Option` to mirror the field being `undefined`-able at the
JS level). -/
structure MicroBatcherConfig where
  batchProcessFn : Option (List JSV → Bool)
  hashFn : Option (JSV → String)
  maxBatchSize : Int
  maxBatchTime : Int
  cacheLifespan : Int
  allowDuplicates : Bool
  start : Bool
deriving Inhabited

/-- `MicroBatcherConfigParams<T>`: every field optional at the call
site (`none` models an absent or `undefined` entry, which the
constructor's spread-merge filters out). -/
structure MicroBatcherConfigParams where
  batchProcessFn : Option (List JSV → Bool) := none
  hashFn : Option (JSV → String) := none
  maxBatchSize : Option Int := none
  maxBatchTime : Option Int := none
  cacheLifespan : Option Int := none
  allowDuplicates : Option Bool := none
  start : Option Bool := none

/-- The mutable state of a `MicroBatcher` instance.  `uuidCounter`
backs the `uuidv4` model.  `processedLog` and `acceptedLog` are pure
trace observations, not JS state: the batches handed to
`batchProcessFn` (by `add`'s synchronous flush or a timer tick), and
the messages whose `add` call did not return `DECLINED`. -/
structure MicroBatcher where
  config : MicroBatcherConfig
  queue : List JSV
  batches : List (Option Batch)
  stringToBatchId : List (String × Option String)
  batchIdToBatchIndex : List (String × Nat)
  currentBatchIndex : Nat
  intervalId : Option Int
  uuidCounter : Nat
  processedLog : List Batch
  acceptedLog : List JSV
deriving Inhabited

/-- The `{ batchId, status }` record returned by `add`, `status` and
`batchStatus`. -/
structure AddResult where
  batchId : Option String
  status : Status
deriving DecidableEq, Repr, Inhabited

/-- `MicroBatcher.start()`: sets `config.start`, clears any existing
interval and arms a new one at `maxBatchTime` (unconditionally — the
source has no guard for `maxBatchTime === 0`). -/
def MicroBatcher.start (mb : MicroBatcher) : MicroBatcher :=
  { mb with config := { mb.config with start := true },
            intervalId := some mb.config.maxBatchTime }

/-- The constructor's spread-merge of the defaults with the provided
fields; `undefined` entries are filtered out, so an absent
`batchProcessFn` silently keeps the default `async () => {}`. -/
def mergeConfig (p : MicroBatcherConfigParams) : MicroBatcherConfig :=
  { batchProcessFn := some (p.batchProcessFn.getD (fun _ => true))
    hashFn := p.hashFn
    maxBatchSize := p.maxBatchSize.getD 10
    maxBatchTime := p.maxBatchTime.getD 10000
    cacheLifespan := p.cacheLifespan.getD 100
    allowDuplicates := p.allowDuplicates.getD false
    start := p.start.getD true }

/-- The `MicroBatcher` constructor: merge, validate (note the check is
`< 0`, not `< 1`), allocate the ring, check `batchProcessFn`, and
`start()` if configured.  (In the source the ring allocation sits
between the two `throw`s; that order is not observable.) -/
def mkMicroBatcher (p : MicroBatcherConfigParams) : Except String MicroBatcher :=
  let config := mergeConfig p
  if config.cacheLifespan < 0 ∨ config.maxBatchSize < 0 ∨ config.maxBatchTime < 0 then
    .error "cacheLifespan, maxBatchSize, and maxBatchTime must be greater than 0"
  else if config.batchProcessFn.isNone then
    .error "batchProcessFn is required in config"
  else
    let mb : MicroBatcher :=
      { config := config
        queue := []
        batches := List.replicate config.cacheLifespan.toNat none
        stringToBatchId := []
        batchIdToBatchIndex := []
        currentBatchIndex := 0
        intervalId := none
        uuidCounter := 0
        processedLog := []
        acceptedLog := [] }
    .ok (if config.start then mb.start else mb)

/-- `MicroBatcher.nextBatch()`: cut `queue.slice(0, maxBatchSize)` if
non-empty, install it at slot `currentBatchIndex++ % cacheLifespan`,
first evicting the batch occupying that slot (deleting its messages'
keys and its id from the two indices).  The slot arithmetic is the JS
one for `cacheLifespan ≥ 1`; the JS `NaN` indexing at
`cacheLifespan = 0` is outside this model and no theorem relies on the
model's value there. -/
def MicroBatcher.nextBatch (mb : MicroBatcher) : Option Batch × MicroBatcher :=
  let currentBatchMessages := jsSliceTo mb.queue mb.config.maxBatchSize
  if currentBatchMessages.length ≠ 0 then
    let currentBatchId := uuidv4 mb.uuidCounter
    let queue2 := jsSliceFrom mb.queue mb.config.maxBatchSize
    let slot := mb.currentBatchIndex % mb.config.cacheLifespan.toNat
    let afterEvict :=
      match listGetO mb.batches slot with
      | some cycledBatch =>
        (cycledBatch.messages.foldl
           (fun m msg => mdelete m (messageToKey mb.config.hashFn msg)) mb.stringToBatchId,
         mdelete mb.batchIdToBatchIndex cycledBatch.batchId)
      | none => (mb.stringToBatchId, mb.batchIdToBatchIndex)
    let s2b := currentBatchMessages.foldl
      (fun m msg => mset m (messageToKey mb.config.hashFn msg) (some currentBatchId))
      afterEvict.1
    let b2i := mset afterEvict.2 currentBatchId slot
    let currentBatch : Batch := ⟨currentBatchMessages, currentBatchId, .BATCHED⟩
    (some currentBatch,
     { mb with queue := queue2
               batches := mb.batches.set slot (some currentBatch)
               stringToBatchId := s2b
               batchIdToBatchIndex := b2i
               currentBatchIndex := mb.currentBatchIndex + 1
               uuidCounter := mb.uuidCounter + 1 })
  else (none, mb)

/-- `MicroBatcher.add(message)`.  The `DECLINED` guards mirror the
source; an accepted message is pushed, registered as pending
(`stringToBatchId.set(key, null)`), and if the queue has reached
`maxBatchSize` one batch is cut and handed to `processBatch`
synchronously. -/
def MicroBatcher.add (mb : MicroBatcher) (message : JSV) : AddResult × MicroBatcher :=
  if mb.config.start = false ∨ message = .null ∨ message = .undef then
    (⟨none, .DECLINED⟩, mb)
  else if mb.config.allowDuplicates = false ∧
          (mget mb.stringToBatchId (messageToKey mb.config.hashFn message)).isSome then
    (⟨none, .DECLINED⟩, mb)
  else
    let mb1 : MicroBatcher :=
      { mb with queue := mb.queue ++ [message]
                stringToBatchId :=
                  mset mb.stringToBatchId (messageToKey mb.config.hashFn message) none
                acceptedLog := mb.acceptedLog ++ [message] }
    if mb.config.maxBatchSize ≤ (mb1.queue.length : Int) then
      match mb1.nextBatch with
      | (some b, mb2) =>
        (⟨some b.batchId, .BATCHED⟩, { mb2 with processedLog := mb2.processedLog ++ [b] })
      | (none, mb2) => (⟨none, .QUEUED⟩, mb2)
    else (⟨none, .QUEUED⟩, mb1)

/-- `MicroBatcher.status(message)`: note the leading JS truthiness
check `if (!message)`, which fires on falsy messages such as `0`, `""`,
`false` and `NaN`. -/
def MicroBatcher.status (mb : MicroBatcher) (message : JSV) : AddResult :=
  if message.truthy = false then ⟨none, .NOTFOUND⟩
  else
    match mget mb.stringToBatchId (messageToKey mb.config.hashFn message) with
    | some none => ⟨none, .QUEUED⟩
    | none => ⟨none, .NOTFOUND⟩
    | some (some batchId) =>
      match mget mb.batchIdToBatchIndex batchId with
      | none => ⟨none, .NOTFOUND⟩
      | some batchIndex =>
        match listGetO mb.batches batchIndex with
        | none => ⟨none, .NOTFOUND⟩
        | some batch => ⟨some batch.batchId, batch.status⟩

/-- `MicroBatcher.batchStatus(batchId)` (the empty string is the only
falsy `string`, hence the first guard). -/
def MicroBatcher.batchStatus (mb : MicroBatcher) (batchId : String) : AddResult :=
  if batchId = "" then ⟨none, .NOTFOUND⟩
  else
    match mget mb.batchIdToBatchIndex batchId with
    | none => ⟨none, .NOTFOUND⟩
    | some batchIndex =>
      match listGetO mb.batches batchIndex with
      | none => ⟨none, .NOTFOUND⟩
      | some batch => ⟨some batch.batchId, batch.status⟩

/-- One firing of the interval callback armed by `start()`: cut a batch
if the queue is non-empty and hand it to `processBatch`. -/
def MicroBatcher.tick (mb : MicroBatcher) : MicroBatcher :=
  match mb.nextBatch with
  | (some b, mb2) => { mb2 with processedLog := mb2.processedLog ++ [b] }
  | (none, mb2) => mb2

/-- The status transition performed when the promise awaited by
`processBatch` settles.  The JS code mutates the `Batch` object in
place; that mutation is observable exactly while the object still sits
in the ring, which is what the id-guarded update captures. -/
def MicroBatcher.settle (mb : MicroBatcher) (batchId : String) (ok : Bool) : MicroBatcher :=
  match mget mb.batchIdToBatchIndex batchId with
  | some i =>
    match listGetO mb.batches i with
    | some b =>
      if b.batchId = batchId then
        let settled : Batch := { b with status := if ok then .RESOLVED else .REJECTED }
        { mb with batches := mb.batches.set i (some settled) }
      else mb
    | none => mb
  | none => mb

/-- The synchronous prefix of `stop()`: `this.config.start = false`
takes effect immediately. -/
def MicroBatcher.stopBegin (mb : MicroBatcher) : MicroBatcher :=
  { mb with config := { mb.config with start := false } }

/-- The resolution of `stop()`'s promise, reachable only once the drain
loop has observed an empty queue (see `Step.stopFinish`): the interval
is cleared unless `start()` was called again meanwhile. -/
def MicroBatcher.stopFinish (mb : MicroBatcher) : MicroBatcher :=
  if mb.config.start = false ∧ mb.intervalId.isSome then { mb with intervalId := none } else mb

/-- Submit a list of messages in order, collecting each `add` result. -/
def MicroBatcher.addAll (mb : MicroBatcher) : List JSV → List AddResult × MicroBatcher
  | [] => ([], mb)
  | m :: ms =>
    let r := mb.add m
    let rest := r.2.addAll ms
    (r.1 :: rest.1, rest.2)

/-- Labels for the engine's observable operations. -/
inductive Ev where
  | add (message : JSV)
  | tick
  | startEv
  | stopBegin
  | stopFinish
  | settle (batchId : String) (ok : Bool)
deriving DecidableEq, Repr

/-- One observable operation of the engine, with its enabling
condition: a timer tick can only fire while an interval is armed, and
`stop()`'s promise resolves only once its drain loop has seen an empty
queue. -/
inductive Step : MicroBatcher → Ev → MicroBatcher → Prop where
  | add (mb : MicroBatcher) (m : JSV) : Step mb (.add m) (mb.add m).2
  | tick (mb : MicroBatcher) (h : mb.intervalId.isSome = true) : Step mb .tick mb.tick
  | startEv (mb : MicroBatcher) : Step mb .startEv mb.start
  | stopBegin (mb : MicroBatcher) : Step mb .stopBegin mb.stopBegin
  | stopFinish (mb : MicroBatcher) (h : mb.queue = []) : Step mb .stopFinish mb.stopFinish
  | settle (mb : MicroBatcher) (batchId : String) (ok : Bool) :
      Step mb (.settle batchId ok) (mb.settle batchId ok)

/-- A finite run of the engine along a list of events. -/
inductive Run : MicroBatcher → List Ev → MicroBatcher → Prop where
  | nil (mb : MicroBatcher) : Run mb [] mb
  | cons {mb mb' mb'' : MicroBatcher} {e : Ev} {evs : List Ev} :
      Step mb e mb' → Run mb' evs mb'' → Run mb (e :: evs) mb''

/-- The engine a successful construction yields (used to name concrete
instances in closed statements). -/
def mbFromParams (p : MicroBatcherConfigParams) : MicroBatcher :=
  ((mkMicroBatcher p).toOption).getD default

/-- Shorthand for the key `messageToKey` derives for a message under an
engine's configured `hashFn`. -/
def keyOf (mb : MicroBatcher) (m : JSV) : String := messageToKey mb.config.hashFn m

/-- The index-consistency invariant of the engine's state: queued
messages are registered as pending, every batch held in the ring is
consistently indexed by both maps, every indexed batch id resolves to
the slot actually holding that batch, and ring batch ids were drawn
from the uuid supply. -/
def InvCore (mb : MicroBatcher) : Prop :=
  mb.config.allowDuplicates = false ∧
  1 ≤ mb.config.cacheLifespan ∧
  0 ≤ mb.config.maxBatchSize ∧
  mb.batches.length = mb.config.cacheLifespan.toNat ∧
  (∀ m ∈ mb.queue, mget mb.stringToBatchId (keyOf mb m) = some none) ∧
  (∀ i b, listGetO mb.batches i = some b →
    mget mb.batchIdToBatchIndex b.batchId = some i ∧
    ∀ m ∈ b.messages, mget mb.stringToBatchId (keyOf mb m) = some (some b.batchId)) ∧
  (∀ bid i, mget mb.batchIdToBatchIndex bid = some i →
    ∃ b, listGetO mb.batches i = some b ∧ b.batchId = bid) ∧
  (∀ i b, listGetO mb.batches i = some b → ∃ k, k < mb.uuidCounter ∧ b.batchId = uuidv4 k)

/-- `InvCore` plus the queue-length bound that makes every cut take the
whole queue. -/
def Consistent (mb : MicroBatcher) : Prop :=
  InvCore mb ∧ (1 ≤ mb.config.maxBatchSize → (mb.queue.length : Int) < mb.config.maxBatchSize)

/-- Accounting invariant behind `stop()`'s no-message-lost guarantee:
every message whose submission was accepted is still queued or already
part of a batch handed to `batchProcessFn`. -/
def DrainInv (mb : MicroBatcher) : Prop :=
  ∀ m ∈ mb.acceptedLog, m ∈ mb.queue ∨ ∃ b ∈ mb.processedLog, m ∈ b.messages

/-- Characterisation of the engine state reached from a fresh engine
(config `hf`, `maxBatchSize = s`, `cacheLifespan = N`) after cutting
the first `j` batches of the submission plan `bIn` (each planned batch
holding exactly `s` messages): batch `jb` is live while `j ≤ jb + N`
and evicted afterwards, slots follow `jb % N`, and messages of batches
not yet submitted are unknown to the key index. -/
structure RunState (hf : Option (JSV → String)) (s N : Nat) (bIn : List (List JSV))
    (j : Nat) (mb : MicroBatcher) : Prop where
  hstart : mb.config.start = true
  hhash : mb.config.hashFn = hf
  hsize : mb.config.maxBatchSize = (s : Int)
  hlife : mb.config.cacheLifespan = (N : Int)
  hqueue : mb.queue = []
  hctr : mb.currentBatchIndex = j
  huuid : mb.uuidCounter = j
  hlen : mb.batches.length = N
  hs2b_live : ∀ jb, jb < j → j ≤ jb + N → ∀ m ∈ bIn.getD jb [],
    mget mb.stringToBatchId (messageToKey hf m) = some (some (uuidv4 jb))
  hs2b_dead : ∀ jb, jb + N < j → ∀ m ∈ bIn.getD jb [],
    mget mb.stringToBatchId (messageToKey hf m) = none
  hs2b_fresh : ∀ jb, j ≤ jb → ∀ m ∈ bIn.getD jb [],
    mget mb.stringToBatchId (messageToKey hf m) = none
  hb2i_live : ∀ jb, jb < j → j ≤ jb + N →
    mget mb.batchIdToBatchIndex (uuidv4 jb) = some (jb % N)
  hb2i_dom : ∀ bid i, mget mb.batchIdToBatchIndex bid = some i →
    ∃ jb, jb < j ∧ j ≤ jb + N ∧ bid = uuidv4 jb ∧ i = jb % N
  hring_live : ∀ jb, jb < j → j ≤ jb + N →
    listGetO mb.batches (jb % N) = some ⟨bIn.getD jb [], uuidv4 jb, .BATCHED⟩
  hring_new : ∀ p, p < N → j ≤ p → listGetO mb.batches p = none

theorem mget_mdelete {α : Type} (m : List (String × α)) (k k' : String) :
    mget (mdelete m k) k' = if k' = k then none else mget m k' := by
  induction m with
  | nil => simp [mget, mdelete]
  | cons p m ih =>
    by_cases hp : p.1 = k
    · rw [mdelete, if_pos hp, ih]
      by_cases hk : k' = k
      · simp [hk]
      · have : ¬ p.1 = k' := by rw [hp]; exact fun h => hk h.symm
        simp [hk, mget, this]
    · rw [mdelete, if_neg hp]
      by_cases hpk : p.1 = k'
      · have hk : ¬ k' = k := fun h => hp (hpk.trans h)
        simp [mget, hpk, hk]
      · simp only [mget, if_neg hpk, ih]

theorem mget_mset {α : Type} (m : List (String × α)) (k k' : String) (v : α) :
    mget (mset m k v) k' = if k' = k then some v else mget m k' := by
  by_cases hk : k' = k
  · simp [mset, mget, hk]
  · have : ¬ (k = k') := fun h => hk h.symm
    simp [mset, mget, this, mget_mdelete, hk]

theorem mget_foldl_mset {α β : Type} (xs : List β) (kf : β → String) (v : α)
    (m0 : List (String × α)) (k : String) :
    mget (xs.foldl (fun m x => mset m (kf x) v) m0) k =
      if ∃ x ∈ xs, kf x = k then some v else mget m0 k := by
  induction xs generalizing m0 with
  | nil => simp
  | cons x xs ih =>
    rw [List.foldl_cons, ih]
    by_cases hx : kf x = k
    · simp [hx, mget_mset]
    · by_cases hxs : ∃ y ∈ xs, kf y = k
      · simp [hxs, hx]
      · have hx' : ¬ k = kf x := fun hh => hx hh.symm
        simp [hxs, hx, hx', mget_mset]

theorem mget_foldl_mdelete {α β : Type} (xs : List β) (kf : β → String)
    (m0 : List (String × α)) (k : String) :
    mget (xs.foldl (fun m x => mdelete m (kf x)) m0) k =
      if ∃ x ∈ xs, kf x = k then none else mget m0 k := by
  induction xs generalizing m0 with
  | nil => simp
  | cons x xs ih =>
    rw [List.foldl_cons, ih]
    by_cases hx : kf x = k
    · by_cases hxs : ∃ y ∈ xs, kf y = k
      · simp [hxs]
      · simp [hxs, hx, mget_mdelete]
    · by_cases hxs : ∃ y ∈ xs, kf y = k
      · simp [hxs, hx]
      · have hx' : ¬ k = kf x := fun hh => hx hh.symm
        simp [hxs, hx, hx', mget_mdelete]

theorem listGetO_nil {α : Type} (i : Nat) : listGetO ([] : List (Option α)) i = none := by
  cases i <;> rfl

theorem listGetO_cons_succ {α : Type} (a : Option α) (l : List (Option α)) (n : Nat) :
    listGetO (a :: l) (n + 1) = listGetO l n := rfl

theorem listGetO_set_self {α : Type} (l : List (Option α)) (i : Nat) (x : Option α)
    (h : i < l.length) : listGetO (l.set i x) i = x := by
  induction l generalizing i with
  | nil => simp at h
  | cons a l ih =>
    cases i with
    | zero => rfl
    | succ n =>
      have : (a :: l).set (n + 1) x = a :: l.set n x := rfl
      rw [this, listGetO_cons_succ]
      exact ih n (Nat.lt_of_succ_lt_succ h)

theorem listGetO_set_ne {α : Type} (l : List (Option α)) (i j : Nat) (x : Option α)
    (h : i ≠ j) : listGetO (l.set i x) j = listGetO l j := by
  induction l generalizing i j with
  | nil => rfl
  | cons a l ih =>
    cases i with
    | zero =>
      cases j with
      | zero => exact absurd rfl h
      | succ m => rfl
    | succ n =>
      cases j with
      | zero => rfl
      | succ m =>
        have : (a :: l).set (n + 1) x = a :: l.set n x := rfl
        rw [this, listGetO_cons_succ, listGetO_cons_succ]
        exact ih n m (fun hh => h (by rw [hh]))

theorem listGetO_replicate_none {α : Type} (n i : Nat) :
    listGetO (List.replicate n (none : Option α)) i = none := by
  induction n generalizing i with
  | zero => exact listGetO_nil i
  | succ n ih =>
    cases i with
    | zero => rfl
    | succ m => rw [List.replicate_succ, listGetO_cons_succ]; exact ih m

theorem uuidv4_injective : Function.Injective uuidv4 := by
  intro a b h
  have hdata : ('b' :: List.replicate a 'u') = ('b' :: List.replicate b 'u') :=
    congrArg String.data h
  have hlen := congrArg List.length hdata
  simpa using hlen

theorem uuidv4_ne_empty (n : Nat) : uuidv4 n ≠ "" := by
  intro h
  have hdata : ('b' :: List.replicate n 'u') = ([] : List Char) := congrArg String.data h
  exact List.cons_ne_nil _ _ hdata

theorem jsSliceTo_all {α : Type} (l : List α) (e : Int) (h : (l.length : Int) ≤ e) :
    jsSliceTo l e = l := by
  have h0 : 0 ≤ e := le_trans (Int.ofNat_nonneg l.length) h
  have hlen : l.length ≤ e.toNat := by omega
  rw [jsSliceTo, if_pos h0]
  exact List.take_of_length_le hlen

theorem jsSliceFrom_all {α : Type} (l : List α) (e : Int) (h : (l.length : Int) ≤ e) :
    jsSliceFrom l e = [] := by
  have h0 : 0 ≤ e := le_trans (Int.ofNat_nonneg l.length) h
  have hlen : l.length ≤ e.toNat := by omega
  rw [jsSliceFrom, if_pos h0]
  exact List.drop_eq_nil_of_le hlen

theorem jsSliceTo_zero {α : Type} (l : List α) : jsSliceTo l 0 = [] := by
  simp [jsSliceTo]

theorem mkMicroBatcher_ok (p : MicroBatcherConfigParams) (mb : MicroBatcher)
    (h : mkMicroBatcher p = .ok mb) :
    mb.queue = [] ∧ mb.stringToBatchId = [] ∧ mb.batchIdToBatchIndex = [] ∧
    mb.currentBatchIndex = 0 ∧ mb.uuidCounter = 0 ∧
    mb.batches = List.replicate mb.config.cacheLifespan.toNat none ∧
    mb.processedLog = [] ∧ mb.acceptedLog = [] ∧
    0 ≤ mb.config.maxBatchSize ∧ 0 ≤ mb.config.cacheLifespan ∧ 0 ≤ mb.config.maxBatchTime ∧
    mb.config.hashFn = p.hashFn ∧
    mb.config.maxBatchSize = p.maxBatchSize.getD 10 ∧
    mb.config.maxBatchTime = p.maxBatchTime.getD 10000 ∧
    mb.config.cacheLifespan = p.cacheLifespan.getD 100 ∧
    mb.config.allowDuplicates = p.allowDuplicates.getD false ∧
    mb.config.start = p.start.getD true ∧
    mb.intervalId = (if p.start.getD true then some (p.maxBatchTime.getD 10000) else none) := by
  unfold mkMicroBatcher at h
  by_cases h1 : (mergeConfig p).cacheLifespan < 0 ∨ (mergeConfig p).maxBatchSize < 0 ∨
      (mergeConfig p).maxBatchTime < 0
  · rw [if_pos h1] at h; exact absurd h (by simp)
  · rw [if_neg h1] at h
    rw [if_neg (by simp [mergeConfig])] at h
    dsimp only at h
    push_neg at h1
    obtain ⟨hL, hS, hT⟩ := h1
    by_cases hs : (mergeConfig p).start
    · rw [if_pos hs] at h
      injection h with hmb
      subst hmb
      refine ⟨rfl, rfl, rfl, rfl, rfl, rfl, rfl, rfl, ?_, ?_, ?_, rfl, rfl, rfl, rfl, rfl, ?_, ?_⟩
      · simpa [mergeConfig, MicroBatcher.start] using hS
      · simpa [mergeConfig, MicroBatcher.start] using hL
      · simpa [mergeConfig, MicroBatcher.start] using hT
      · simpa [mergeConfig, MicroBatcher.start] using hs
      · simpa [mergeConfig, MicroBatcher.start] using hs
    · rw [if_neg hs] at h
      injection h with hmb
      subst hmb
      have hs' : p.start.getD true = false := by
        simpa [mergeConfig] using eq_false_of_ne_true hs
      refine ⟨rfl, rfl, rfl, rfl, rfl, rfl, rfl, rfl, ?_, ?_, ?_, rfl, rfl, rfl, rfl, rfl, ?_, ?_⟩
      · exact hS
      · exact hL
      · exact hT
      · rfl
      · simp [hs']

theorem MicroBatcher.nextBatch_full_noevict (mb : MicroBatcher)
    (hne : mb.queue ≠ [])
    (hfit : (mb.queue.length : Int) ≤ mb.config.maxBatchSize)
    (hcyc : listGetO mb.batches (mb.currentBatchIndex % mb.config.cacheLifespan.toNat) = none) :
    mb.nextBatch =
      (some ⟨mb.queue, uuidv4 mb.uuidCounter, .BATCHED⟩,
       { mb with
         queue := []
         batches := mb.batches.set (mb.currentBatchIndex % mb.config.cacheLifespan.toNat)
           (some ⟨mb.queue, uuidv4 mb.uuidCounter, .BATCHED⟩)
         stringToBatchId := mb.queue.foldl
           (fun mm msg =>
             mset mm (messageToKey mb.config.hashFn msg) (some (uuidv4 mb.uuidCounter)))
           mb.stringToBatchId
         batchIdToBatchIndex := mset mb.batchIdToBatchIndex (uuidv4 mb.uuidCounter)
           (mb.currentBatchIndex % mb.config.cacheLifespan.toNat)
         currentBatchIndex := mb.currentBatchIndex + 1
         uuidCounter := mb.uuidCounter + 1 }) := by
  have hlen : mb.queue.length ≠ 0 := fun hh => hne (List.length_eq_zero.mp hh)
  simp only [MicroBatcher.nextBatch, jsSliceTo_all _ _ hfit, jsSliceFrom_all _ _ hfit, hcyc,
    hlen, if_true, ne_eq, not_false_iff]

theorem MicroBatcher.nextBatch_full_evict (mb : MicroBatcher) (cb : Batch)
    (hne : mb.queue ≠ [])
    (hfit : (mb.queue.length : Int) ≤ mb.config.maxBatchSize)
    (hcyc : listGetO mb.batches (mb.currentBatchIndex % mb.config.cacheLifespan.toNat) =
      some cb) :
    mb.nextBatch =
      (some ⟨mb.queue, uuidv4 mb.uuidCounter, .BATCHED⟩,
       { mb with
         queue := []
         batches := mb.batches.set (mb.currentBatchIndex % mb.config.cacheLifespan.toNat)
           (some ⟨mb.queue, uuidv4 mb.uuidCounter, .BATCHED⟩)
         stringToBatchId := mb.queue.foldl
           (fun mm msg =>
             mset mm (messageToKey mb.config.hashFn msg) (some (uuidv4 mb.uuidCounter)))
           (cb.messages.foldl
             (fun mm msg => mdelete mm (messageToKey mb.config.hashFn msg))
             mb.stringToBatchId)
         batchIdToBatchIndex := mset (mdelete mb.batchIdToBatchIndex cb.batchId)
           (uuidv4 mb.uuidCounter) (mb.currentBatchIndex % mb.config.cacheLifespan.toNat)
         currentBatchIndex := mb.currentBatchIndex + 1
         uuidCounter := mb.uuidCounter + 1 }) := by
  have hlen : mb.queue.length ≠ 0 := fun hh => hne (List.length_eq_zero.mp hh)
  simp only [MicroBatcher.nextBatch, jsSliceTo_all _ _ hfit, jsSliceFrom_all _ _ hfit, hcyc,
    hlen, if_true, ne_eq, not_false_iff]

theorem MicroBatcher.nextBatch_size_zero (mb : MicroBatcher)
    (hsz : mb.config.maxBatchSize = 0) :
    mb.nextBatch = (none, mb) := by
  simp [MicroBatcher.nextBatch, hsz, jsSliceTo_zero]

theorem MicroBatcher.add_declined_of (mb : MicroBatcher) (m : JSV)
    (h : mb.config.start = false ∨ m = .null ∨ m = .undef ∨
      (mb.config.allowDuplicates = false ∧
       (mget mb.stringToBatchId (messageToKey mb.config.hashFn m)).isSome = true)) :
    mb.add m = (⟨none, .DECLINED⟩, mb) := by
  unfold MicroBatcher.add
  by_cases h1 : mb.config.start = false ∨ m = .null ∨ m = .undef
  · rw [if_pos h1]
  · rw [if_neg h1]
    have h2 : mb.config.allowDuplicates = false ∧
        (mget mb.stringToBatchId (messageToKey mb.config.hashFn m)).isSome = true := by
      tauto
    rw [if_pos h2]

theorem MicroBatcher.add_nocut (mb : MicroBatcher) (m : JSV)
    (hstart : mb.config.start = true) (hm1 : m ≠ .null) (hm2 : m ≠ .undef)
    (hfresh : mb.config.allowDuplicates = true ∨
      mget mb.stringToBatchId (messageToKey mb.config.hashFn m) = none)
    (hsmall : (mb.queue.length : Int) + 1 < mb.config.maxBatchSize) :
    mb.add m =
      (⟨none, .QUEUED⟩,
       { mb with queue := mb.queue ++ [m]
                 stringToBatchId :=
                   mset mb.stringToBatchId (messageToKey mb.config.hashFn m) none
                 acceptedLog := mb.acceptedLog ++ [m] }) := by
  unfold MicroBatcher.add
  rw [if_neg (by simp [hstart, hm1, hm2])]
  rw [if_neg (by rcases hfresh with hf | hf <;> simp [hf])]
  rw [if_neg (by simp only [List.length_append, List.length_cons, List.length_nil]; push_cast; omega)]

theorem MicroBatcher.add_size_zero (mb : MicroBatcher) (m : JSV)
    (hstart : mb.config.start = true) (hm1 : m ≠ .null) (hm2 : m ≠ .undef)
    (hfresh : mb.config.allowDuplicates = true ∨
      mget mb.stringToBatchId (messageToKey mb.config.hashFn m) = none)
    (hsz : mb.config.maxBatchSize = 0) :
    mb.add m =
      (⟨none, .QUEUED⟩,
       { mb with queue := mb.queue ++ [m]
                 stringToBatchId :=
                   mset mb.stringToBatchId (messageToKey mb.config.hashFn m) none
                 acceptedLog := mb.acceptedLog ++ [m] }) := by
  unfold MicroBatcher.add
  rw [if_neg (by simp [hstart, hm1, hm2])]
  rw [if_neg (by rcases hfresh with hf | hf <;> simp [hf])]
  rw [if_pos (by rw [hsz]; positivity)]
  rw [MicroBatcher.nextBatch_size_zero _ (by simpa using hsz)]

theorem MicroBatcher.add_cut_noevict (mb : MicroBatcher) (m : JSV)
    (hstart : mb.config.start = true) (hm1 : m ≠ .null) (hm2 : m ≠ .undef)
    (hfresh : mb.config.allowDuplicates = true ∨
      mget mb.stringToBatchId (messageToKey mb.config.hashFn m) = none)
    (htrig : mb.config.maxBatchSize ≤ (mb.queue.length : Int) + 1)
    (hfit : (mb.queue.length : Int) + 1 ≤ mb.config.maxBatchSize)
    (hcyc : listGetO mb.batches (mb.currentBatchIndex % mb.config.cacheLifespan.toNat) = none) :
    mb.add m =
      (⟨some (uuidv4 mb.uuidCounter), .BATCHED⟩,
       { mb with
         queue := []
         batches := mb.batches.set (mb.currentBatchIndex % mb.config.cacheLifespan.toNat)
           (some ⟨mb.queue ++ [m], uuidv4 mb.uuidCounter, .BATCHED⟩)
         stringToBatchId := (mb.queue ++ [m]).foldl
           (fun mm msg =>
             mset mm (messageToKey mb.config.hashFn msg) (some (uuidv4 mb.uuidCounter)))
           (mset mb.stringToBatchId (messageToKey mb.config.hashFn m) none)
         batchIdToBatchIndex := mset mb.batchIdToBatchIndex (uuidv4 mb.uuidCounter)
           (mb.currentBatchIndex % mb.config.cacheLifespan.toNat)
         currentBatchIndex := mb.currentBatchIndex + 1
         uuidCounter := mb.uuidCounter + 1
         processedLog := mb.processedLog ++ [⟨mb.queue ++ [m], uuidv4 mb.uuidCounter, .BATCHED⟩]
         acceptedLog := mb.acceptedLog ++ [m] }) := by
  unfold MicroBatcher.add
  rw [if_neg (by simp [hstart, hm1, hm2])]
  rw [if_neg (by rcases hfresh with hf | hf <;> simp [hf])]
  rw [if_pos (by simp only [List.length_append, List.length_cons, List.length_nil]; push_cast; omega)]
  rw [MicroBatcher.nextBatch_full_noevict _ (by simp)
    (by simp only [List.length_append, List.length_cons, List.length_nil]; push_cast; omega)
    (by simpa using hcyc)]

theorem MicroBatcher.add_cut_evict (mb : MicroBatcher) (m : JSV) (cb : Batch)
    (hstart : mb.config.start = true) (hm1 : m ≠ .null) (hm2 : m ≠ .undef)
    (hfresh : mb.config.allowDuplicates = true ∨
      mget mb.stringToBatchId (messageToKey mb.config.hashFn m) = none)
    (htrig : mb.config.maxBatchSize ≤ (mb.queue.length : Int) + 1)
    (hfit : (mb.queue.length : Int) + 1 ≤ mb.config.maxBatchSize)
    (hcyc : listGetO mb.batches (mb.currentBatchIndex % mb.config.cacheLifespan.toNat) =
      some cb) :
    mb.add m =
      (⟨some (uuidv4 mb.uuidCounter), .BATCHED⟩,
       { mb with
         queue := []
         batches := mb.batches.set (mb.currentBatchIndex % mb.config.cacheLifespan.toNat)
           (some ⟨mb.queue ++ [m], uuidv4 mb.uuidCounter, .BATCHED⟩)
         stringToBatchId := (mb.queue ++ [m]).foldl
           (fun mm msg =>
             mset mm (messageToKey mb.config.hashFn msg) (some (uuidv4 mb.uuidCounter)))
           (cb.messages.foldl
             (fun mm msg => mdelete mm (messageToKey mb.config.hashFn msg))
             (mset mb.stringToBatchId (messageToKey mb.config.hashFn m) none))
         batchIdToBatchIndex := mset (mdelete mb.batchIdToBatchIndex cb.batchId)
           (uuidv4 mb.uuidCounter) (mb.currentBatchIndex % mb.config.cacheLifespan.toNat)
         currentBatchIndex := mb.currentBatchIndex + 1
         uuidCounter := mb.uuidCounter + 1
         processedLog := mb.processedLog ++ [⟨mb.queue ++ [m], uuidv4 mb.uuidCounter, .BATCHED⟩]
         acceptedLog := mb.acceptedLog ++ [m] }) := by
  unfold MicroBatcher.add
  rw [if_neg (by simp [hstart, hm1, hm2])]
  rw [if_neg (by rcases hfresh with hf | hf <;> simp [hf])]
  rw [if_pos (by simp only [List.length_append, List.length_cons, List.length_nil]; push_cast; omega)]
  rw [MicroBatcher.nextBatch_full_evict _ cb (by simp)
    (by simp only [List.length_append, List.length_cons, List.length_nil]; push_cast; omega)
    (by simpa using hcyc)]

theorem MicroBatcher.addAll_append (mb : MicroBatcher) (xs ys : List JSV) :
    mb.addAll (xs ++ ys) =
      ((mb.addAll xs).1 ++ ((mb.addAll xs).2.addAll ys).1, ((mb.addAll xs).2.addAll ys).2) := by
  induction xs generalizing mb with
  | nil => simp [MicroBatcher.addAll]
  | cons x xs ih => simp [MicroBatcher.addAll, ih]

theorem MicroBatcher.addAll_queued (msgs : List JSV) : ∀ (mb : MicroBatcher),
    mb.config.start = true →
    (∀ m ∈ msgs, m ≠ .null ∧ m ≠ .undef) →
    (∀ m ∈ msgs, mget mb.stringToBatchId (messageToKey mb.config.hashFn m) = none) →
    (msgs.map (messageToKey mb.config.hashFn)).Nodup →
    (mb.queue.length : Int) + msgs.length < mb.config.maxBatchSize →
    mb.addAll msgs =
      (List.replicate msgs.length ⟨none, .QUEUED⟩,
       { mb with queue := mb.queue ++ msgs
                 stringToBatchId := msgs.foldl
                   (fun mm x => mset mm (messageToKey mb.config.hashFn x) none)
                   mb.stringToBatchId
                 acceptedLog := mb.acceptedLog ++ msgs }) := by
  induction msgs with
  | nil =>
    intro mb _ _ _ _ _
    simp [MicroBatcher.addAll]
  | cons m ms ih =>
    intro mb hstart hnn hfresh hnd hsmall
    rw [List.map_cons, List.nodup_cons] at hnd
    have hm := hnn m (List.mem_cons_self m ms)
    have hadd := MicroBatcher.add_nocut mb m hstart hm.1 hm.2
      (Or.inr (hfresh m (List.mem_cons_self m ms)))
      (by simp only [List.length_cons] at hsmall; push_cast at hsmall ⊢; omega)
    have ihr := ih
      ({ mb with queue := mb.queue ++ [m]
                 stringToBatchId :=
                   mset mb.stringToBatchId (messageToKey mb.config.hashFn m) none
                 acceptedLog := mb.acceptedLog ++ [m] })
      hstart
      (fun x hx => hnn x (List.mem_cons_of_mem m hx))
      (fun x hx => by
        have hne : messageToKey mb.config.hashFn x ≠ messageToKey mb.config.hashFn m := by
          intro hcontra
          exact hnd.1 (by rw [← hcontra]; exact List.mem_map_of_mem _ hx)
        show mget (mset mb.stringToBatchId (messageToKey mb.config.hashFn m) none)
          (messageToKey mb.config.hashFn x) = none
        rw [mget_mset, if_neg hne]
        exact hfresh x (List.mem_cons_of_mem m hx))
      hnd.2
      (by simp only [List.length_append, List.length_cons, List.length_nil] at hsmall ⊢
          push_cast at hsmall ⊢; omega)
    simp only [MicroBatcher.addAll]
    rw [hadd]
    dsimp only
    rw [ihr]
    simp [List.replicate_succ, List.append_assoc]

theorem keys_disjoint_of_concat_nodup (hf : Option (JSV → String)) (init : List JSV) (mN : JSV)
    (hnd : ((init ++ [mN]).map (messageToKey hf)).Nodup) :
    ¬ ∃ x ∈ init, messageToKey hf x = messageToKey hf mN := by
  rintro ⟨x, hx, hkey⟩
  rw [List.map_append, List.nodup_append] at hnd
  exact hnd.2.2 (List.mem_map_of_mem _ hx) (by simp [hkey])

/-- C1: with `maxBatchSize = n ≥ 1` and an empty pending queue,
submitting `n` distinct accepted messages returns QUEUED for each of
the first `n - 1` and BATCHED with the fresh batch id for the n-th,
and exactly one batch — containing exactly those `n` messages in
submission order — is handed to `batchProcessFn`, synchronously inside
the n-th `add`. -/
theorem c1_size_triggered_flush (mb : MicroBatcher) (msgs : List JSV) (n : Nat)
    (hq : mb.queue = [])
    (hstart : mb.config.start = true)
    (hsize : mb.config.maxBatchSize = (n : Int))
    (hn : 1 ≤ n)
    (hlen : msgs.length = n)
    (hnn : ∀ m ∈ msgs, m ≠ .null ∧ m ≠ .undef)
    (hfresh : ∀ m ∈ msgs, mget mb.stringToBatchId (messageToKey mb.config.hashFn m) = none)
    (hnd : (msgs.map (messageToKey mb.config.hashFn)).Nodup) :
    (mb.addAll msgs).1 =
      List.replicate (n - 1) ⟨none, .QUEUED⟩ ++ [⟨some (uuidv4 mb.uuidCounter), .BATCHED⟩] ∧
    (mb.addAll msgs).2.processedLog =
      mb.processedLog ++ [⟨msgs, uuidv4 mb.uuidCounter, .BATCHED⟩] ∧
    (mb.addAll msgs).2.queue = [] := by
  rcases List.eq_nil_or_concat msgs with rfl | ⟨init, mN, rfl⟩
  · simp at hlen; omega
  · rw [List.concat_eq_append] at hlen hnn hfresh hnd ⊢
    have hinit : init.length = n - 1 := by
      simp only [List.length_append, List.length_cons, List.length_nil] at hlen; omega
    have hq1 := MicroBatcher.addAll_queued init mb hstart
      (fun x hx => hnn x (List.mem_append_left _ hx))
      (fun x hx => hfresh x (List.mem_append_left _ hx))
      ((by rw [List.map_append] at hnd; exact hnd.of_append_left))
      (by rw [hq, hsize]; simp only [List.length_nil]; push_cast; omega)
    rw [MicroBatcher.addAll_append, hq1]
    set mb1 : MicroBatcher :=
      { mb with queue := mb.queue ++ init
                stringToBatchId := init.foldl
                  (fun mm x => mset mm (messageToKey mb.config.hashFn x) none)
                  mb.stringToBatchId
                acceptedLog := mb.acceptedLog ++ init } with hmb1
    have hmN := hnn mN (List.mem_append_right _ (by simp))
    have hfresh1 : mget mb1.stringToBatchId (messageToKey mb1.config.hashFn mN) = none := by
      show mget (init.foldl
        (fun mm x => mset mm (messageToKey mb.config.hashFn x) none) mb.stringToBatchId)
        (messageToKey mb.config.hashFn mN) = none
      rw [mget_foldl_mset, if_neg (keys_disjoint_of_concat_nodup _ _ _ hnd)]
      exact hfresh mN (List.mem_append_right _ (by simp))
    have hql : mb1.queue = init := by rw [hmb1]; simp [hq]
    have hlen1 : (mb1.queue.length : Int) + 1 = (n : Int) := by rw [hql, hinit]; omega
    have h1 : (mb1.addAll [mN]).1 = [(mb1.add mN).1] := by
      simp [MicroBatcher.addAll]
    have h2 : (mb1.addAll [mN]).2 = (mb1.add mN).2 := by
      simp [MicroBatcher.addAll]
    rcases hc : listGetO mb1.batches (mb1.currentBatchIndex % mb1.config.cacheLifespan.toNat)
      with _ | cb
    · have hadd := MicroBatcher.add_cut_noevict mb1 mN hstart hmN.1 hmN.2 (Or.inr hfresh1)
        (by rw [hlen1]; exact le_of_eq hsize) (by rw [hlen1]; exact ge_of_eq hsize) hc
      refine ⟨?_, ?_, ?_⟩
      · rw [h1, hadd]; simp [hinit]
      · rw [h2, hadd]; simp only []
        show mb.processedLog ++ [⟨mb1.queue ++ [mN], uuidv4 mb.uuidCounter, .BATCHED⟩] =
          mb.processedLog ++ [⟨init ++ [mN], uuidv4 mb.uuidCounter, .BATCHED⟩]
        rw [hql]
      · rw [h2, hadd]
    · have hadd := MicroBatcher.add_cut_evict mb1 mN cb hstart hmN.1 hmN.2 (Or.inr hfresh1)
        (by rw [hlen1]; exact le_of_eq hsize) (by rw [hlen1]; exact ge_of_eq hsize) hc
      refine ⟨?_, ?_, ?_⟩
      · rw [h1, hadd]; simp [hinit]
      · rw [h2, hadd]; simp only []
        show mb.processedLog ++ [⟨mb1.queue ++ [mN], uuidv4 mb.uuidCounter, .BATCHED⟩] =
          mb.processedLog ++ [⟨init ++ [mN], uuidv4 mb.uuidCounter, .BATCHED⟩]
        rw [hql]
      · rw [h2, hadd]

theorem MicroBatcher.add_status_cases (mb : MicroBatcher) (m : JSV) :
    (mb.add m).1.status = .DECLINED ∨ (mb.add m).1.status = .QUEUED ∨
    (mb.add m).1.status = .BATCHED := by
  unfold MicroBatcher.add
  split
  · exact Or.inl rfl
  · split
    · exact Or.inl rfl
    · dsimp only
      split
      · split
        · exact Or.inr (Or.inr rfl)
        · exact Or.inr (Or.inl rfl)
      · exact Or.inr (Or.inl rfl)

theorem MicroBatcher.add_not_declined (mb : MicroBatcher) (m : JSV)
    (h1 : ¬(mb.config.start = false ∨ m = .null ∨ m = .undef))
    (h2 : ¬(mb.config.allowDuplicates = false ∧
      (mget mb.stringToBatchId (messageToKey mb.config.hashFn m)).isSome = true)) :
    (mb.add m).1.status ≠ .DECLINED := by
  unfold MicroBatcher.add
  rw [if_neg h1, if_neg h2]
  dsimp only
  split
  · split
    · simp
    · simp
  · simp

/-- C8: `add` returns `{batchId: null, status: DECLINED}` and leaves
the entire engine state unchanged (queue, both indices, ring, batch
counter — and `processedLog`, so a declined message is never handed to
`batchProcessFn`) exactly when the message is null/undefined, the
engine is not accepting, or duplicate suppression is on and the
derived key already resolves to a queued or batched entry.  The
modelled `add` is a total function, so a declined submission never
raises. -/
theorem c8_declined_exactly (mb : MicroBatcher) (m : JSV) :
    ((mb.add m).1.status = .DECLINED ↔
      (mb.config.start = false ∨ m = .null ∨ m = .undef ∨
       (mb.config.allowDuplicates = false ∧
        (mget mb.stringToBatchId (messageToKey mb.config.hashFn m)).isSome = true))) ∧
    ((mb.add m).1.status = .DECLINED → mb.add m = (⟨none, .DECLINED⟩, mb)) := by
  by_cases h : mb.config.start = false ∨ m = .null ∨ m = .undef ∨
      (mb.config.allowDuplicates = false ∧
       (mget mb.stringToBatchId (messageToKey mb.config.hashFn m)).isSome = true)
  · rw [MicroBatcher.add_declined_of mb m h]
    exact ⟨iff_of_true rfl h, fun _ => rfl⟩
  · have h1 : ¬(mb.config.start = false ∨ m = .null ∨ m = .undef) := fun hc => h (by tauto)
    have h2 : ¬(mb.config.allowDuplicates = false ∧
        (mget mb.stringToBatchId (messageToKey mb.config.hashFn m)).isSome = true) :=
      fun hc => h (Or.inr (Or.inr (Or.inr hc)))
    have hne := MicroBatcher.add_not_declined mb m h1 h2
    exact ⟨iff_of_false hne h, fun hc => absurd hc hne⟩

/-- Witness for C8 at a concrete engine and message. -/
theorem c8_declined_exactly_witness :
    (((mbFromParams {}).add .null).1.status = .DECLINED ↔
      ((mbFromParams {}).config.start = false ∨ JSV.null = .null ∨ JSV.null = .undef ∨
       ((mbFromParams {}).config.allowDuplicates = false ∧
        (mget (mbFromParams {}).stringToBatchId
          (messageToKey (mbFromParams {}).config.hashFn .null)).isSome = true))) ∧
    (((mbFromParams {}).add .null).1.status = .DECLINED →
      (mbFromParams {}).add .null = (⟨none, .DECLINED⟩, mbFromParams {})) :=
  c8_declined_exactly (mbFromParams {}) .null

/-- C10: a falsy but non-null, non-undefined message (`0`, `""`,
`false`, `NaN`) is accepted by `add` (QUEUED or BATCHED) whenever the
engine is accepting and the key is admissible, yet `status` of that
same message returns NOTFOUND with null id against every engine state
— even while the message sits in the pending queue or a cached batch,
the `!message` guard treats it as nonexistent. -/
theorem c10_falsy_accepted_but_notfound (mb : MicroBatcher) (m : JSV)
    (hfalsy : m.truthy = false) (hm1 : m ≠ .null) (hm2 : m ≠ .undef)
    (hstart : mb.config.start = true)
    (hfresh : mb.config.allowDuplicates = true ∨
      mget mb.stringToBatchId (messageToKey mb.config.hashFn m) = none) :
    ((mb.add m).1.status = .QUEUED ∨ (mb.add m).1.status = .BATCHED) ∧
    (∀ mb' : MicroBatcher, mb'.status m = ⟨none, .NOTFOUND⟩) := by
  constructor
  · have h1 : ¬(mb.config.start = false ∨ m = .null ∨ m = .undef) := by
      simp [hstart, hm1, hm2]
    have h2 : ¬(mb.config.allowDuplicates = false ∧
        (mget mb.stringToBatchId (messageToKey mb.config.hashFn m)).isSome = true) := by
      rcases hfresh with hf | hf <;> simp [hf]
    rcases MicroBatcher.add_status_cases mb m with h | h | h
    · exact absurd h (MicroBatcher.add_not_declined mb m h1 h2)
    · exact Or.inl h
    · exact Or.inr h
  · intro mb'
    simp [MicroBatcher.status, hfalsy]

/-- Witness for C10: the engine accepts the number `0` (QUEUED) while
`status 0` is NOTFOUND on every state, in particular right after the
submission. -/
theorem c10_falsy_accepted_but_notfound_witness :
    ((((mbFromParams {}).add (.num 0)).1.status = .QUEUED ∨
      ((mbFromParams {}).add (.num 0)).1.status = .BATCHED) ∧
     (∀ mb' : MicroBatcher, mb'.status (.num 0) = ⟨none, .NOTFOUND⟩)) ∧
    ((mbFromParams {}).add (.num 0)).2.status (.num 0) = ⟨none, .NOTFOUND⟩ := by
  refine ⟨c10_falsy_accepted_but_notfound (mbFromParams {}) (.num 0)
    (by decide) (by decide) (by decide) rfl (Or.inr rfl), rfl⟩

/-- C3 as stated is false: after `add(0)` — a falsy but accepted
message — the derived key `"0"` maps to the pending sentinel, yet the
key-based lookup returns NOTFOUND where the claim requires QUEUED. -/
theorem c3_statusByKey_cases_cex :
    mget ((mbFromParams {}).add (.num 0)).2.stringToBatchId "0" = some none ∧
    ((mbFromParams {}).add (.num 0)).2.status (.num 0) = ⟨none, .NOTFOUND⟩ ∧
    (⟨none, .NOTFOUND⟩ : AddResult) ≠ ⟨none, .QUEUED⟩ := by
  exact ⟨rfl, rfl, by decide⟩

/-- C3 (amended: for truthy messages; falsy messages always read
NOTFOUND, see the counterexample): the key-based status lookup returns
NOTFOUND/null id when the key is absent, QUEUED/null id on the pending
sentinel, the batch's current status together with its id when the key
maps to a batch id whose ring slot still holds that batch, and
NOTFOUND/null id when the mapped batch id is stale (absent from the
slot index, i.e. evicted). -/
theorem c3_statusByKey_cases (mb : MicroBatcher) (m : JSV) (ht : m.truthy = true) :
    (mget mb.stringToBatchId (messageToKey mb.config.hashFn m) = none →
      mb.status m = ⟨none, .NOTFOUND⟩) ∧
    (mget mb.stringToBatchId (messageToKey mb.config.hashFn m) = some none →
      mb.status m = ⟨none, .QUEUED⟩) ∧
    (∀ bid i b, mget mb.stringToBatchId (messageToKey mb.config.hashFn m) = some (some bid) →
      mget mb.batchIdToBatchIndex bid = some i →
      listGetO mb.batches i = some b → b.batchId = bid →
      mb.status m = ⟨some bid, b.status⟩) ∧
    (∀ bid, mget mb.stringToBatchId (messageToKey mb.config.hashFn m) = some (some bid) →
      mget mb.batchIdToBatchIndex bid = none →
      mb.status m = ⟨none, .NOTFOUND⟩) := by
  refine ⟨?_, ?_, ?_, ?_⟩
  · intro h; simp [MicroBatcher.status, ht, h]
  · intro h; simp [MicroBatcher.status, ht, h]
  · intro bid i b hk hb hr hid; simp [MicroBatcher.status, ht, hk, hb, hr, hid]
  · intro bid hk hb; simp [MicroBatcher.status, ht, hk, hb]

/-- Witness for the amended C3 at a concrete engine and truthy
message. -/
theorem c3_statusByKey_cases_witness :
    (mget (mbFromParams {}).stringToBatchId
        (messageToKey (mbFromParams {}).config.hashFn (.str "a")) = none →
      (mbFromParams {}).status (.str "a") = ⟨none, .NOTFOUND⟩) ∧
    (mget (mbFromParams {}).stringToBatchId
        (messageToKey (mbFromParams {}).config.hashFn (.str "a")) = some none →
      (mbFromParams {}).status (.str "a") = ⟨none, .QUEUED⟩) ∧
    (∀ bid i b, mget (mbFromParams {}).stringToBatchId
        (messageToKey (mbFromParams {}).config.hashFn (.str "a")) = some (some bid) →
      mget (mbFromParams {}).batchIdToBatchIndex bid = some i →
      listGetO (mbFromParams {}).batches i = some b → b.batchId = bid →
      (mbFromParams {}).status (.str "a") = ⟨some bid, b.status⟩) ∧
    (∀ bid, mget (mbFromParams {}).stringToBatchId
        (messageToKey (mbFromParams {}).config.hashFn (.str "a")) = some (some bid) →
      mget (mbFromParams {}).batchIdToBatchIndex bid = none →
      (mbFromParams {}).status (.str "a") = ⟨none, .NOTFOUND⟩) :=
  c3_statusByKey_cases (mbFromParams {}) (.str "a") (by decide)

/-- C4 (code bug): the claim — and the spec, the constructor's own
error message ("must be greater than 0") and its dead
`batchProcessFn` check — require construction to fail for
`cacheLifespan = 0` and for a missing processing function, but the
validation tests `< 0` and the spread-merge substitutes the default
`async () => {}`, so both constructions succeed (a negative value does
fail). -/
theorem c4_construction_accepts_invalid_config :
    ((mkMicroBatcher { cacheLifespan := some 0 }).toOption.isSome = true) ∧
    ((mkMicroBatcher { batchProcessFn := none }).toOption.isSome = true) ∧
    ((mkMicroBatcher { cacheLifespan := some (-1) }).toOption.isSome = false) := by
  exact ⟨rfl, rfl, rfl⟩

/-- C5 (code bug): with `maxBatchSize = 0` the submissions indeed never
flush (first conjuncts), but a timer tick on the non-empty queue also
cuts nothing — `nextBatch` slices `queue.slice(0, 0) = []` and returns
undefined, leaving the queue and the processed log untouched — where
the claim requires every tick with a non-empty queue to cut one batch
and hand it to `batchProcessFn`. -/
theorem c5_size_zero_tick_never_cuts :
    (((mbFromParams { maxBatchSize := some 0, maxBatchTime := some 100 }).addAll
        [.str "a", .str "b", .str "c"]).1 =
      [⟨none, .QUEUED⟩, ⟨none, .QUEUED⟩, ⟨none, .QUEUED⟩]) ∧
    (((mbFromParams { maxBatchSize := some 0, maxBatchTime := some 100 }).addAll
        [.str "a", .str "b", .str "c"]).2.processedLog = []) ∧
    (((mbFromParams { maxBatchSize := some 0, maxBatchTime := some 100 }).addAll
        [.str "a", .str "b", .str "c"]).2.queue = [.str "a", .str "b", .str "c"]) ∧
    ((((mbFromParams { maxBatchSize := some 0, maxBatchTime := some 100 }).addAll
        [.str "a", .str "b", .str "c"]).2.tick) =
      ((mbFromParams { maxBatchSize := some 0, maxBatchTime := some 100 }).addAll
        [.str "a", .str "b", .str "c"]).2) := by
  exact ⟨rfl, rfl, rfl, rfl⟩

/-- C6 (code bug): with `maxBatchTime = 0` the constructor's `start()`
still arms the recurring interval (`setInterval(..., 0)`, which JS
runtimes clamp to a ≥ 1 ms period and fire), and such a tick with a
non-empty queue flushes a batch to `batchProcessFn` — the claim
requires that no timer be armed and that no timer-triggered flush ever
occur. -/
theorem c6_timer_armed_at_zero :
    (mbFromParams { maxBatchTime := some 0 }).intervalId = some 0 ∧
    ((mbFromParams { maxBatchTime := some 0 }).add (.str "a")).2.intervalId.isSome = true ∧
    (((mbFromParams { maxBatchTime := some 0 }).add (.str "a")).2.tick).processedLog =
      [⟨[.str "a"], uuidv4 0, .BATCHED⟩] := by
  exact ⟨rfl, rfl, rfl⟩

/-- Witness for C1: a fresh engine with `maxBatchSize = 2` and the two
distinct messages "a", "b". -/
theorem c1_size_triggered_flush_witness :
    ((mbFromParams { maxBatchSize := some 2, cacheLifespan := some 1 }).addAll
        [.str "a", .str "b"]).1 =
      List.replicate (2 - 1) ⟨none, .QUEUED⟩ ++
        [⟨some (uuidv4 (mbFromParams
          { maxBatchSize := some 2, cacheLifespan := some 1 }).uuidCounter), .BATCHED⟩] ∧
    ((mbFromParams { maxBatchSize := some 2, cacheLifespan := some 1 }).addAll
        [.str "a", .str "b"]).2.processedLog =
      (mbFromParams { maxBatchSize := some 2, cacheLifespan := some 1 }).processedLog ++
        [⟨[.str "a", .str "b"],
          uuidv4 (mbFromParams
            { maxBatchSize := some 2, cacheLifespan := some 1 }).uuidCounter, .BATCHED⟩] ∧
    ((mbFromParams { maxBatchSize := some 2, cacheLifespan := some 1 }).addAll
        [.str "a", .str "b"]).2.queue = [] :=
  c1_size_triggered_flush (mbFromParams { maxBatchSize := some 2, cacheLifespan := some 1 })
    [.str "a", .str "b"] 2 rfl rfl (by decide) (by decide) (by decide) (by decide)
    (by decide) (by decide)

/-- C7 as stated is false when duplicates are allowed: with
`allowDuplicates = true`, `maxBatchSize = 1`, `cacheLifespan = 2`,
submitting "a" twice leaves ring slot 0 holding the first batch (id
`uuidv4 0`) whose message "a" now resolves to the second batch's id
`uuidv4 1` — a key of a batch held in the ring that does not map to
that batch's id. -/
theorem c7_index_consistency_cex :
    listGetO ((((mbFromParams { maxBatchSize := some 1, cacheLifespan := some 2, allowDuplicates := some true }).add (.str "a")).2.add (.str "a")).2).batches 0 = some ⟨[.str "a"], uuidv4 0, .BATCHED⟩ ∧
    mget ((((mbFromParams { maxBatchSize := some 1, cacheLifespan := some 2, allowDuplicates := some true }).add (.str "a")).2.add (.str "a")).2).stringToBatchId (messageToKey none (.str "a")) = some (some (uuidv4 1)) ∧
    uuidv4 1 ≠ uuidv4 0 := by
  exact ⟨rfl, rfl, by decide⟩

theorem listGetO_isSome_lt {α : Type} (l : List (Option α)) (i : Nat) (x : α)
    (h : listGetO l i = some x) : i < l.length := by
  by_contra hlt
  push_neg at hlt
  rw [listGetO, List.get?_eq_none.mpr hlt] at h
  simp [Option.join] at h

theorem MicroBatcher.nextBatch_config (mb : MicroBatcher) :
    (mb.nextBatch).2.config = mb.config := by
  unfold MicroBatcher.nextBatch
  dsimp only
  split <;> rfl

theorem MicroBatcher.nextBatch_intervalId (mb : MicroBatcher) :
    (mb.nextBatch).2.intervalId = mb.intervalId := by
  unfold MicroBatcher.nextBatch
  dsimp only
  split <;> rfl

theorem MicroBatcher.nextBatch_logs (mb : MicroBatcher) :
    (mb.nextBatch).2.processedLog = mb.processedLog ∧
    (mb.nextBatch).2.acceptedLog = mb.acceptedLog := by
  unfold MicroBatcher.nextBatch
  dsimp only
  split <;> exact ⟨rfl, rfl⟩

theorem MicroBatcher.nextBatch_empty (mb : MicroBatcher) (hq : mb.queue = []) :
    mb.nextBatch = (none, mb) := by
  unfold MicroBatcher.nextBatch
  rw [if_neg]
  simp [hq, jsSliceTo]

theorem mem_sliceTo_or_sliceFrom {α : Type} (l : List α) (e : Int) (x : α) (hx : x ∈ l) :
    x ∈ jsSliceTo l e ∨ x ∈ jsSliceFrom l e := by
  rw [jsSliceTo, jsSliceFrom]
  have := List.take_append_drop
    (if 0 ≤ e then e.toNat else l.length - min l.length e.natAbs) l
  rw [← this] at hx
  exact List.mem_append.mp hx

theorem MicroBatcher.nextBatch_account (mb mb2 : MicroBatcher) (ob : Option Batch)
    (h : mb.nextBatch = (ob, mb2)) :
    (∀ x ∈ mb.queue, (∃ b, ob = some b ∧ x ∈ b.messages) ∨ x ∈ mb2.queue) ∧
    mb2.processedLog = mb.processedLog ∧ mb2.acceptedLog = mb.acceptedLog := by
  unfold MicroBatcher.nextBatch at h
  dsimp only at h
  split at h
  · rw [Prod.mk.injEq] at h
    obtain ⟨hob, hmb2⟩ := h
    subst hob
    subst hmb2
    refine ⟨?_, rfl, rfl⟩
    intro x hx
    rcases mem_sliceTo_or_sliceFrom mb.queue mb.config.maxBatchSize x hx with hmem | hmem
    · exact Or.inl ⟨_, rfl, hmem⟩
    · exact Or.inr hmem
  · rw [Prod.mk.injEq] at h
    obtain ⟨hob, hmb2⟩ := h
    subst hob
    subst hmb2
    exact ⟨fun x hx => Or.inr hx, rfl, rfl⟩

theorem MicroBatcher.add_intervalId (mb : MicroBatcher) (m : JSV) :
    ((mb.add m).2).intervalId = mb.intervalId := by
  unfold MicroBatcher.add
  split
  · rfl
  · split
    · rfl
    · dsimp only
      split
      · split
        · rename_i b mb2 heq
          have h2 : _ = mb2 := congrArg Prod.snd heq
          show mb2.intervalId = mb.intervalId
          rw [← h2, MicroBatcher.nextBatch_intervalId]
        · rename_i mb2 heq
          have h2 : _ = mb2 := congrArg Prod.snd heq
          show mb2.intervalId = mb.intervalId
          rw [← h2, MicroBatcher.nextBatch_intervalId]
      · rfl

theorem MicroBatcher.add_config (mb : MicroBatcher) (m : JSV) :
    ((mb.add m).2).config = mb.config := by
  unfold MicroBatcher.add
  split
  · rfl
  · split
    · rfl
    · dsimp only
      split
      · split
        · rename_i b mb2 heq
          have h2 : _ = mb2 := congrArg Prod.snd heq
          show mb2.config = mb.config
          rw [← h2, MicroBatcher.nextBatch_config]
        · rename_i mb2 heq
          have h2 : _ = mb2 := congrArg Prod.snd heq
          show mb2.config = mb.config
          rw [← h2, MicroBatcher.nextBatch_config]
      · rfl

theorem MicroBatcher.tick_eta (mb : MicroBatcher) :
    (mb.tick).config = mb.config ∧ (mb.tick).intervalId = mb.intervalId ∧
    (mb.tick).acceptedLog = mb.acceptedLog := by
  unfold MicroBatcher.tick
  split
  · rename_i b mb2 heq
    have h2 : _ = mb2 := congrArg Prod.snd heq
    refine ⟨?_, ?_, ?_⟩
    · show mb2.config = mb.config
      rw [← h2, MicroBatcher.nextBatch_config]
    · show mb2.intervalId = mb.intervalId
      rw [← h2, MicroBatcher.nextBatch_intervalId]
    · show mb2.acceptedLog = mb.acceptedLog
      rw [← h2]
      exact (MicroBatcher.nextBatch_logs mb).2
  · rename_i mb2 heq
    have h2 : _ = mb2 := congrArg Prod.snd heq
    refine ⟨?_, ?_, ?_⟩
    · show mb2.config = mb.config
      rw [← h2, MicroBatcher.nextBatch_config]
    · show mb2.intervalId = mb.intervalId
      rw [← h2, MicroBatcher.nextBatch_intervalId]
    · show mb2.acceptedLog = mb.acceptedLog
      rw [← h2]
      exact (MicroBatcher.nextBatch_logs mb).2

theorem MicroBatcher.settle_eta (mb : MicroBatcher) (batchId : String) (ok : Bool) :
    (mb.settle batchId ok).config = mb.config ∧
    (mb.settle batchId ok).queue = mb.queue ∧
    (mb.settle batchId ok).intervalId = mb.intervalId ∧
    (mb.settle batchId ok).processedLog = mb.processedLog ∧
    (mb.settle batchId ok).acceptedLog = mb.acceptedLog ∧
    (mb.settle batchId ok).stringToBatchId = mb.stringToBatchId ∧
    (mb.settle batchId ok).batchIdToBatchIndex = mb.batchIdToBatchIndex := by
  unfold MicroBatcher.settle
  repeat' split
  all_goals exact ⟨rfl, rfl, rfl, rfl, rfl, rfl, rfl⟩

theorem drainInv_add (mb : MicroBatcher) (m : JSV) (h : DrainInv mb) :
    DrainInv (mb.add m).2 := by
  unfold MicroBatcher.add
  split
  · exact h
  · split
    · exact h
    · dsimp only
      split
      · split
        · rename_i b mb2 heq
          have hacc := MicroBatcher.nextBatch_account _ mb2 (some b) heq
          intro x hx
          have hx' : x ∈ mb.acceptedLog ++ [m] := by
            have : mb2.acceptedLog = mb.acceptedLog ++ [m] := hacc.2.2
            rw [← this]; exact hx
          have hq1 : x ∈ mb.queue ++ [m] ∨ ∃ b0 ∈ mb.processedLog, x ∈ b0.messages := by
            rcases List.mem_append.mp hx' with hx2 | hx2
            · rcases h x hx2 with hq | hp
              · exact Or.inl (List.mem_append_left _ hq)
              · exact Or.inr hp
            · exact Or.inl (List.mem_append_right _ hx2)
          rcases hq1 with hq | ⟨b0, hb0, hmsg⟩
          · rcases hacc.1 x hq with ⟨b1, hb1, hmsg⟩ | hq2
            · rw [Option.some.injEq] at hb1
              subst hb1
              exact Or.inr ⟨b, List.mem_append_right _ (by simp), hmsg⟩
            · exact Or.inl hq2
          · refine Or.inr ⟨b0, ?_, hmsg⟩
            show b0 ∈ mb2.processedLog ++ [b]
            exact List.mem_append_left _ (by rw [hacc.2.1]; exact hb0)
        · rename_i mb2 heq
          have hacc := MicroBatcher.nextBatch_account _ mb2 none heq
          intro x hx
          have hx' : x ∈ mb.acceptedLog ++ [m] := by
            have : mb2.acceptedLog = mb.acceptedLog ++ [m] := hacc.2.2
            rw [← this]; exact hx
          have hq1 : x ∈ mb.queue ++ [m] ∨ ∃ b0 ∈ mb.processedLog, x ∈ b0.messages := by
            rcases List.mem_append.mp hx' with hx2 | hx2
            · rcases h x hx2 with hq | hp
              · exact Or.inl (List.mem_append_left _ hq)
              · exact Or.inr hp
            · exact Or.inl (List.mem_append_right _ hx2)
          rcases hq1 with hq | ⟨b0, hb0, hmsg⟩
          · rcases hacc.1 x hq with ⟨b1, hb1, _⟩ | hq2
            · exact absurd hb1 (by simp)
            · exact Or.inl hq2
          · exact Or.inr ⟨b0, by rw [hacc.2.1]; exact hb0, hmsg⟩
      · intro x hx
        rcases List.mem_append.mp hx with hx2 | hx2
        · rcases h x hx2 with hq | hp
          · exact Or.inl (List.mem_append_left _ hq)
          · exact Or.inr hp
        · exact Or.inl (List.mem_append_right _ hx2)

theorem drainInv_tick (mb : MicroBatcher) (h : DrainInv mb) : DrainInv mb.tick := by
  unfold MicroBatcher.tick
  split
  · rename_i b mb2 heq
    have hacc := MicroBatcher.nextBatch_account _ mb2 (some b) heq
    intro x hx
    have hx' : x ∈ mb.acceptedLog := by rw [← hacc.2.2]; exact hx
    rcases h x hx' with hq | ⟨b0, hb0, hmsg⟩
    · rcases hacc.1 x hq with ⟨b1, hb1, hmsg⟩ | hq2
      · rw [Option.some.injEq] at hb1
        subst hb1
        exact Or.inr ⟨b, List.mem_append_right _ (by simp), hmsg⟩
      · exact Or.inl hq2
    · refine Or.inr ⟨b0, ?_, hmsg⟩
      show b0 ∈ mb2.processedLog ++ [b]
      exact List.mem_append_left _ (by rw [hacc.2.1]; exact hb0)
  · rename_i mb2 heq
    have hacc := MicroBatcher.nextBatch_account _ mb2 none heq
    intro x hx
    have hx' : x ∈ mb.acceptedLog := by rw [← hacc.2.2]; exact hx
    rcases h x hx' with hq | ⟨b0, hb0, hmsg⟩
    · rcases hacc.1 x hq with ⟨b1, hb1, _⟩ | hq2
      · exact absurd hb1 (by simp)
      · exact Or.inl hq2
    · exact Or.inr ⟨b0, by rw [hacc.2.1]; exact hb0, hmsg⟩

theorem drainInv_step (mb mb' : MicroBatcher) (e : Ev) (h : DrainInv mb)
    (hs : Step mb e mb') : DrainInv mb' := by
  cases hs with
  | add m => exact drainInv_add mb m h
  | tick _ => exact drainInv_tick mb h
  | startEv => exact h
  | stopBegin => exact h
  | stopFinish _ =>
    unfold MicroBatcher.stopFinish
    split
    · exact h
    · exact h
  | settle batchId ok =>
    unfold MicroBatcher.settle
    repeat' split
    all_goals exact h

theorem drainInv_run (mb mb' : MicroBatcher) (evs : List Ev) (hr : Run mb evs mb')
    (h : DrainInv mb) : DrainInv mb' := by
  induction hr with
  | nil _ => exact h
  | cons hs _ ih => exact ih (drainInv_step _ _ _ h hs)

theorem step_start_false (mb mb' : MicroBatcher) (e : Ev) (hs : Step mb e mb')
    (he : e ≠ .startEv) (h : mb.config.start = false) : mb'.config.start = false := by
  cases hs with
  | add m => rw [MicroBatcher.add_config]; exact h
  | tick _ => rw [(MicroBatcher.tick_eta mb).1]; exact h
  | startEv => exact absurd rfl he
  | stopBegin => rfl
  | stopFinish _ =>
    unfold MicroBatcher.stopFinish
    split
    · exact h
    · exact h
  | settle batchId ok => rw [(MicroBatcher.settle_eta mb batchId ok).1]; exact h

theorem run_start_false (mb mb' : MicroBatcher) (evs : List Ev) (hr : Run mb evs mb')
    (hno : Ev.startEv ∉ evs) (h : mb.config.start = false) : mb'.config.start = false := by
  induction hr with
  | nil _ => exact h
  | cons hs _ ih =>
    rw [List.mem_cons] at hno
    push_neg at hno
    exact ih hno.2 (step_start_false _ _ _ hs (fun hc => hno.1 hc.symm) h)

theorem step_interval_some (mb mb' : MicroBatcher) (e : Ev) (hs : Step mb e mb')
    (he : e ≠ .stopFinish) (h : mb.intervalId.isSome = true) :
    mb'.intervalId.isSome = true := by
  cases hs with
  | add m => rw [MicroBatcher.add_intervalId]; exact h
  | tick _ => rw [(MicroBatcher.tick_eta mb).2.1]; exact h
  | startEv => rfl
  | stopBegin => exact h
  | stopFinish _ => exact absurd rfl he
  | settle batchId ok => rw [(MicroBatcher.settle_eta mb batchId ok).2.2.1]; exact h

theorem stopFinish_disarms (mb : MicroBatcher) (h : mb.config.start = false) :
    (mb.stopFinish).intervalId = none := by
  unfold MicroBatcher.stopFinish
  split
  · rfl
  · rename_i hcond
    cases hi : mb.intervalId
    · rfl
    · exact absurd ⟨h, by rw [hi]; rfl⟩ hcond

/-- C9: `stop()` sets the engine non-accepting immediately — every
`add` after `stopBegin` (with no intervening `start()`) is DECLINED —
and its promise resolves (`stopFinish`) only from a state with an
empty pending queue, at which point every message ever accepted is
contained in some batch handed to `batchProcessFn` (never silently
dropped); the recurring timer survives every step except `stopFinish`
itself and is disarmed there (when the engine is still stopped), i.e.
only after the drain. -/
theorem c9_stop_drains (p : MicroBatcherConfigParams) (mb0 s t : MicroBatcher)
    (evs : List Ev)
    (hmk : mkMicroBatcher p = .ok mb0)
    (hrun : Run mb0 evs s)
    (hstop : Step s .stopFinish t) :
    s.queue = [] ∧
    (∀ m ∈ s.acceptedLog, ∃ b ∈ s.processedLog, m ∈ b.messages) ∧
    (∀ m : JSV, ((s.stopBegin).add m).1.status = .DECLINED) ∧
    (∀ evs2 s2, Run s.stopBegin evs2 s2 → Ev.startEv ∉ evs2 →
      ∀ m : JSV, (s2.add m).1.status = .DECLINED) ∧
    (s.config.start = false → t.intervalId = none) ∧
    (∀ mb e mb', Step mb e mb' → e ≠ Ev.stopFinish →
      mb.intervalId.isSome = true → mb'.intervalId.isSome = true) := by
  have hdrain0 : DrainInv mb0 := by
    intro m hm
    rw [(mkMicroBatcher_ok p mb0 hmk).2.2.2.2.2.2.2.1] at hm
    simp at hm
  have hdrain : DrainInv s := drainInv_run mb0 s evs hrun hdrain0
  cases hstop with
  | stopFinish hq =>
    refine ⟨hq, ?_, ?_, ?_, ?_, ?_⟩
    · intro m hm
      rcases hdrain m hm with hqm | hp
      · rw [hq] at hqm
        simp at hqm
      · exact hp
    · intro m
      rw [MicroBatcher.add_declined_of _ m (Or.inl rfl)]
    · intro evs2 s2 hrun2 hno m
      have hs2 : s2.config.start = false := run_start_false _ _ _ hrun2 hno rfl
      rw [MicroBatcher.add_declined_of _ m (Or.inl hs2)]
    · intro hfalse
      exact stopFinish_disarms s hfalse
    · intro mb e mb' hs he hi
      exact step_interval_some mb mb' e hs he hi

/-- Witness for C9: submit "a", drain it with one timer tick, then
resolve `stop()`. -/
theorem c9_stop_drains_witness :
    (MicroBatcher.tick ((mbFromParams { maxBatchTime := some 5 }).add (.str "a")).2).queue = [] ∧
    (∀ m ∈ (MicroBatcher.tick ((mbFromParams { maxBatchTime := some 5 }).add (.str "a")).2).acceptedLog,
      ∃ b ∈ (MicroBatcher.tick ((mbFromParams { maxBatchTime := some 5 }).add (.str "a")).2).processedLog,
        m ∈ b.messages) ∧
    (∀ m : JSV, (((MicroBatcher.tick ((mbFromParams { maxBatchTime := some 5 }).add (.str "a")).2).stopBegin).add m).1.status = .DECLINED) ∧
    (∀ evs2 s2, Run (MicroBatcher.tick ((mbFromParams { maxBatchTime := some 5 }).add (.str "a")).2).stopBegin evs2 s2 →
      Ev.startEv ∉ evs2 → ∀ m : JSV, (s2.add m).1.status = .DECLINED) ∧
    ((MicroBatcher.tick ((mbFromParams { maxBatchTime := some 5 }).add (.str "a")).2).config.start = false →
      ((MicroBatcher.tick ((mbFromParams { maxBatchTime := some 5 }).add (.str "a")).2).stopFinish).intervalId = none) ∧
    (∀ mb e mb', Step mb e mb' → e ≠ Ev.stopFinish →
      mb.intervalId.isSome = true → mb'.intervalId.isSome = true) :=
  c9_stop_drains { maxBatchTime := some 5 }
    (mbFromParams { maxBatchTime := some 5 })
    (MicroBatcher.tick ((mbFromParams { maxBatchTime := some 5 }).add (.str "a")).2)
    ((MicroBatcher.tick ((mbFromParams { maxBatchTime := some 5 }).add (.str "a")).2).stopFinish)
    [Ev.add (.str "a"), Ev.tick] rfl
    (Run.cons (Step.add _ _) (Run.cons (Step.tick _ rfl) (Run.nil _)))
    (Step.stopFinish _ rfl)

theorem cut_preserves (mb : MicroBatcher) (h : InvCore mb)
    (hne : mb.queue ≠ [])
    (hfit : (mb.queue.length : Int) ≤ mb.config.maxBatchSize) :
    InvCore (mb.nextBatch).2 ∧ (mb.nextBatch).2.queue = [] := by
  obtain ⟨hdup, hN, hsz, hlenr, hqp, hring, hdom, hfr⟩ := h
  have hNpos : 0 < mb.config.cacheLifespan.toNat := by omega
  have hslotlt : mb.currentBatchIndex % mb.config.cacheLifespan.toNat < mb.batches.length := by
    rw [hlenr]; exact Nat.mod_lt _ hNpos
  have hqk : ∀ x ∈ mb.queue, ∀ i b, listGetO mb.batches i = some b →
      ∀ m ∈ b.messages, ¬ keyOf mb x = keyOf mb m := by
    intro x hx i b hb m hm hk
    have h1 := hqp x hx
    have h2 := (hring i b hb).2 m hm
    rw [hk] at h1
    rw [h1] at h2
    simp at h2
  have hdistinct : ∀ i b i' b', listGetO mb.batches i = some b →
      listGetO mb.batches i' = some b' → b.batchId = b'.batchId → i = i' := by
    intro i b i' b' hb hb' hid
    have ha := (hring i b hb).1
    have hb2 := (hring i' b' hb').1
    rw [hid] at ha
    rw [ha] at hb2
    exact Option.some_inj.mp hb2
  cases hcyc : listGetO mb.batches (mb.currentBatchIndex % mb.config.cacheLifespan.toNat) with
  | none =>
    rw [MicroBatcher.nextBatch_full_noevict mb hne hfit hcyc]
    refine ⟨⟨hdup, hN, hsz, ?_, ?_, ?_, ?_, ?_⟩, rfl⟩
    · show (mb.batches.set _ _).length = _
      rw [List.length_set]; exact hlenr
    · intro m hm
      simp at hm
    · intro i b hb
      by_cases hi : i = mb.currentBatchIndex % mb.config.cacheLifespan.toNat
      · subst hi
        rw [listGetO_set_self _ _ _ hslotlt] at hb
        injection hb with hb
        subst hb
        constructor
        · show mget (mset mb.batchIdToBatchIndex (uuidv4 mb.uuidCounter) _)
            (uuidv4 mb.uuidCounter) = _
          rw [mget_mset, if_pos rfl]
        · intro m hm
          show mget (mb.queue.foldl _ mb.stringToBatchId) _ = _
          rw [mget_foldl_mset, if_pos ⟨m, hm, rfl⟩]
      · rw [listGetO_set_ne _ _ _ _ (fun hh => hi hh.symm)] at hb
        obtain ⟨k, hk, hkid⟩ := hfr i b hb
        have hbid_ne : ¬ b.batchId = uuidv4 mb.uuidCounter := by
          rw [hkid]; intro hc; exact absurd (uuidv4_injective hc) (by omega)
        constructor
        · show mget (mset mb.batchIdToBatchIndex (uuidv4 mb.uuidCounter) _) b.batchId = _
          rw [mget_mset, if_neg hbid_ne]
          exact (hring i b hb).1
        · intro m hm
          show mget (mb.queue.foldl _ mb.stringToBatchId) _ = _
          rw [mget_foldl_mset, if_neg]
          · exact (hring i b hb).2 m hm
          · rintro ⟨x, hx, hkx⟩
            exact hqk x hx i b hb m hm hkx
    · intro bid i hbid
      by_cases hb : bid = uuidv4 mb.uuidCounter
      · rw [show mget (mset mb.batchIdToBatchIndex (uuidv4 mb.uuidCounter)
              (mb.currentBatchIndex % mb.config.cacheLifespan.toNat)) bid =
            if bid = uuidv4 mb.uuidCounter
              then some (mb.currentBatchIndex % mb.config.cacheLifespan.toNat)
              else mget mb.batchIdToBatchIndex bid from mget_mset _ _ _ _, if_pos hb] at hbid
        injection hbid with hbid
        subst hbid
        exact ⟨⟨mb.queue, uuidv4 mb.uuidCounter, .BATCHED⟩,
          listGetO_set_self _ _ _ hslotlt, hb.symm⟩
      · rw [show mget (mset mb.batchIdToBatchIndex (uuidv4 mb.uuidCounter)
              (mb.currentBatchIndex % mb.config.cacheLifespan.toNat)) bid =
            if bid = uuidv4 mb.uuidCounter
              then some (mb.currentBatchIndex % mb.config.cacheLifespan.toNat)
              else mget mb.batchIdToBatchIndex bid from mget_mset _ _ _ _, if_neg hb] at hbid
        obtain ⟨b, hgb, hbid'⟩ := hdom bid i hbid
        have hi : ¬ i = mb.currentBatchIndex % mb.config.cacheLifespan.toNat := by
          intro hc
          rw [hc, hcyc] at hgb
          exact Option.noConfusion hgb
        exact ⟨b, by rw [listGetO_set_ne _ _ _ _ (fun hh => hi hh.symm)]; exact hgb, hbid'⟩
    · intro i b hb
      by_cases hi : i = mb.currentBatchIndex % mb.config.cacheLifespan.toNat
      · subst hi
        rw [listGetO_set_self _ _ _ hslotlt] at hb
        injection hb with hb
        subst hb
        exact ⟨mb.uuidCounter, Nat.lt_succ_self _, rfl⟩
      · rw [listGetO_set_ne _ _ _ _ (fun hh => hi hh.symm)] at hb
        obtain ⟨k, hk, hkid⟩ := hfr i b hb
        exact ⟨k, Nat.lt_succ_of_lt hk, hkid⟩
  | some cb =>
    have hcbring := hring _ cb hcyc
    rw [MicroBatcher.nextBatch_full_evict mb cb hne hfit hcyc]
    refine ⟨⟨hdup, hN, hsz, ?_, ?_, ?_, ?_, ?_⟩, rfl⟩
    · show (mb.batches.set _ _).length = _
      rw [List.length_set]; exact hlenr
    · intro m hm
      simp at hm
    · intro i b hb
      by_cases hi : i = mb.currentBatchIndex % mb.config.cacheLifespan.toNat
      · subst hi
        rw [listGetO_set_self _ _ _ hslotlt] at hb
        injection hb with hb
        subst hb
        constructor
        · show mget (mset (mdelete mb.batchIdToBatchIndex cb.batchId)
            (uuidv4 mb.uuidCounter) _) (uuidv4 mb.uuidCounter) = _
          rw [mget_mset, if_pos rfl]
        · intro m hm
          show mget (mb.queue.foldl _ (cb.messages.foldl _ mb.stringToBatchId)) _ = _
          rw [mget_foldl_mset, if_pos ⟨m, hm, rfl⟩]
      · rw [listGetO_set_ne _ _ _ _ (fun hh => hi hh.symm)] at hb
        obtain ⟨k, hk, hkid⟩ := hfr i b hb
        have hbid_ne : ¬ b.batchId = uuidv4 mb.uuidCounter := by
          rw [hkid]; intro hc; exact absurd (uuidv4_injective hc) (by omega)
        have hbid_necb : ¬ b.batchId = cb.batchId := by
          intro hc
          exact hi (hdistinct i b _ cb hb hcyc hc)
        constructor
        · show mget (mset (mdelete mb.batchIdToBatchIndex cb.batchId)
            (uuidv4 mb.uuidCounter) _) b.batchId = _
          rw [mget_mset, if_neg hbid_ne, mget_mdelete, if_neg hbid_necb]
          exact (hring i b hb).1
        · intro m hm
          show mget (mb.queue.foldl _ (cb.messages.foldl _ mb.stringToBatchId)) _ = _
          rw [mget_foldl_mset, if_neg]
          · rw [mget_foldl_mdelete, if_neg]
            · exact (hring i b hb).2 m hm
            · rintro ⟨x, hx, hkx⟩
              have h1 := hcbring.2 x hx
              have h2 := (hring i b hb).2 m hm
              have hkx2 : keyOf mb x = keyOf mb m := hkx
              rw [hkx2] at h1
              rw [h1] at h2
              rw [Option.some_inj, Option.some_inj] at h2
              exact hbid_necb h2.symm
          · rintro ⟨x, hx, hkx⟩
            exact hqk x hx i b hb m hm hkx
    · intro bid i hbid
      by_cases hb : bid = uuidv4 mb.uuidCounter
      · rw [show mget (mset (mdelete mb.batchIdToBatchIndex cb.batchId)
              (uuidv4 mb.uuidCounter) (mb.currentBatchIndex % mb.config.cacheLifespan.toNat)) bid =
            if bid = uuidv4 mb.uuidCounter
              then some (mb.currentBatchIndex % mb.config.cacheLifespan.toNat)
              else mget (mdelete mb.batchIdToBatchIndex cb.batchId) bid from
            mget_mset _ _ _ _, if_pos hb] at hbid
        injection hbid with hbid
        subst hbid
        exact ⟨⟨mb.queue, uuidv4 mb.uuidCounter, .BATCHED⟩,
          listGetO_set_self _ _ _ hslotlt, hb.symm⟩
      · rw [show mget (mset (mdelete mb.batchIdToBatchIndex cb.batchId)
              (uuidv4 mb.uuidCounter) (mb.currentBatchIndex % mb.config.cacheLifespan.toNat)) bid =
            if bid = uuidv4 mb.uuidCounter
              then some (mb.currentBatchIndex % mb.config.cacheLifespan.toNat)
              else mget (mdelete mb.batchIdToBatchIndex cb.batchId) bid from
            mget_mset _ _ _ _, if_neg hb, mget_mdelete] at hbid
        by_cases hbcb : bid = cb.batchId
        · rw [if_pos hbcb] at hbid
          exact Option.noConfusion hbid
        · rw [if_neg hbcb] at hbid
          obtain ⟨b, hgb, hbid'⟩ := hdom bid i hbid
          have hi : ¬ i = mb.currentBatchIndex % mb.config.cacheLifespan.toNat := by
            intro hc
            rw [hc, hcyc] at hgb
            injection hgb with hgb
            exact hbcb (by rw [← hbid', hgb])
          exact ⟨b, by rw [listGetO_set_ne _ _ _ _ (fun hh => hi hh.symm)]; exact hgb, hbid'⟩
    · intro i b hb
      by_cases hi : i = mb.currentBatchIndex % mb.config.cacheLifespan.toNat
      · subst hi
        rw [listGetO_set_self _ _ _ hslotlt] at hb
        injection hb with hb
        subst hb
        exact ⟨mb.uuidCounter, Nat.lt_succ_self _, rfl⟩
      · rw [listGetO_set_ne _ _ _ _ (fun hh => hi hh.symm)] at hb
        obtain ⟨k, hk, hkid⟩ := hfr i b hb
        exact ⟨k, Nat.lt_succ_of_lt hk, hkid⟩

theorem invCore_congr (a b : MicroBatcher)
    (hc : a.config = b.config) (hq : a.queue = b.queue) (hbs : a.batches = b.batches)
    (hs : a.stringToBatchId = b.stringToBatchId)
    (hbi : a.batchIdToBatchIndex = b.batchIdToBatchIndex)
    (hu : a.uuidCounter = b.uuidCounter) (h : InvCore a) : InvCore b := by
  cases a
  cases b
  dsimp only at hc hq hbs hs hbi hu
  subst hc
  subst hq
  subst hbs
  subst hs
  subst hbi
  subst hu
  exact h

theorem consistent_add (mb : MicroBatcher) (m : JSV) (h : Consistent mb) :
    Consistent (mb.add m).2 := by
  obtain ⟨hcore, hbound⟩ := h
  by_cases hd : mb.config.start = false ∨ m = .null ∨ m = .undef ∨
      (mb.config.allowDuplicates = false ∧
       (mget mb.stringToBatchId (messageToKey mb.config.hashFn m)).isSome = true)
  · rw [MicroBatcher.add_declined_of mb m hd]
    exact ⟨hcore, hbound⟩
  · push_neg at hd
    obtain ⟨hd1, hm1, hm2, hd4⟩ := hd
    have hstart : mb.config.start = true := by
      cases hb : mb.config.start
      · exact absurd hb hd1
      · rfl
    have hfresh : mget mb.stringToBatchId (messageToKey mb.config.hashFn m) = none := by
      obtain ⟨hdup, _⟩ := hcore
      have := hd4 hdup
      cases hg : mget mb.stringToBatchId (messageToKey mb.config.hashFn m)
      · rfl
      · exact absurd (by rw [hg]; rfl) this
    have hcore1 : InvCore
        { mb with queue := mb.queue ++ [m]
                  stringToBatchId :=
                    mset mb.stringToBatchId (messageToKey mb.config.hashFn m) none
                  acceptedLog := mb.acceptedLog ++ [m] } := by
      obtain ⟨hdup, hN, hsz, hlenr, hqp, hring, hdom, hfr⟩ := hcore
      refine ⟨hdup, hN, hsz, hlenr, ?_, ?_, hdom, hfr⟩
      · intro x hx
        rcases List.mem_append.mp hx with hx2 | hx2
        · show mget (mset mb.stringToBatchId (messageToKey mb.config.hashFn m) none)
            (keyOf mb x) = some none
          by_cases hk : keyOf mb x = messageToKey mb.config.hashFn m
          · rw [mget_mset, if_pos hk]
          · rw [mget_mset, if_neg hk]
            exact hqp x hx2
        · have hxm : x = m := by simpa using hx2
          subst hxm
          show mget (mset mb.stringToBatchId (messageToKey mb.config.hashFn x) none)
            (keyOf mb x) = some none
          rw [mget_mset,
            if_pos (show keyOf mb x = messageToKey mb.config.hashFn x from rfl)]
      · intro i b hb
        refine ⟨(hring i b hb).1, ?_⟩
        intro x hx
        show mget (mset mb.stringToBatchId (messageToKey mb.config.hashFn m) none)
          (keyOf mb x) = some (some b.batchId)
        have hne : ¬ keyOf mb x = messageToKey mb.config.hashFn m := by
          intro hc
          have h1 := (hring i b hb).2 x hx
          rw [hc] at h1
          rw [hfresh] at h1
          exact Option.noConfusion h1
        rw [mget_mset, if_neg hne]
        exact (hring i b hb).2 x hx
    by_cases hs1 : mb.config.maxBatchSize ≤ (mb.queue.length : Int) + 1
    · by_cases hz : 1 ≤ mb.config.maxBatchSize
      · have hfit : (mb.queue.length : Int) + 1 ≤ mb.config.maxBatchSize := by
          have := hbound hz
          omega
        have hfit1 : (((mb.queue ++ [m]).length : Int)) ≤ mb.config.maxBatchSize := by
          simp only [List.length_append, List.length_cons, List.length_nil]
          push_cast
          omega
        have hcut := cut_preserves
          { mb with queue := mb.queue ++ [m]
                    stringToBatchId :=
                      mset mb.stringToBatchId (messageToKey mb.config.hashFn m) none
                    acceptedLog := mb.acceptedLog ++ [m] }
          hcore1 (by simp) hfit1
        cases hcyc : listGetO mb.batches
            (mb.currentBatchIndex % mb.config.cacheLifespan.toNat) with
        | none =>
          rw [MicroBatcher.add_cut_noevict mb m hstart hm1 hm2 (Or.inr hfresh) hs1 hfit hcyc]
          rw [MicroBatcher.nextBatch_full_noevict
            { mb with queue := mb.queue ++ [m]
                      stringToBatchId :=
                        mset mb.stringToBatchId (messageToKey mb.config.hashFn m) none
                      acceptedLog := mb.acceptedLog ++ [m] }
            (by simp) hfit1 hcyc] at hcut
          refine ⟨invCore_congr _ _ rfl rfl rfl rfl rfl rfl hcut.1, ?_⟩
          intro h1s
          show ((0 : Nat) : Int) < mb.config.maxBatchSize
          omega
        | some cb =>
          rw [MicroBatcher.add_cut_evict mb m cb hstart hm1 hm2 (Or.inr hfresh) hs1 hfit hcyc]
          rw [MicroBatcher.nextBatch_full_evict
            { mb with queue := mb.queue ++ [m]
                      stringToBatchId :=
                        mset mb.stringToBatchId (messageToKey mb.config.hashFn m) none
                      acceptedLog := mb.acceptedLog ++ [m] }
            cb (by simp) hfit1 hcyc] at hcut
          refine ⟨invCore_congr _ _ rfl rfl rfl rfl rfl rfl hcut.1, ?_⟩
          intro h1s
          show ((0 : Nat) : Int) < mb.config.maxBatchSize
          omega
      · have hz0 : mb.config.maxBatchSize = 0 := by
          obtain ⟨_, _, hsz, _⟩ := hcore
          omega
        rw [MicroBatcher.add_size_zero mb m hstart hm1 hm2 (Or.inr hfresh) hz0]
        refine ⟨hcore1, ?_⟩
        intro h1s
        rw [hz0] at h1s
        omega
    · push_neg at hs1
      rw [MicroBatcher.add_nocut mb m hstart hm1 hm2 (Or.inr hfresh) hs1]
      refine ⟨hcore1, ?_⟩
      intro h1s
      show (((mb.queue ++ [m]).length : Nat) : Int) < mb.config.maxBatchSize
      simp only [List.length_append, List.length_cons, List.length_nil]
      push_cast
      omega

theorem consistent_tick (mb : MicroBatcher) (h : Consistent mb) : Consistent mb.tick := by
  by_cases hq : mb.queue = []
  · unfold MicroBatcher.tick
    rw [MicroBatcher.nextBatch_empty mb hq]
    exact h
  · by_cases hz : 1 ≤ mb.config.maxBatchSize
    · have hfit : (mb.queue.length : Int) ≤ mb.config.maxBatchSize := le_of_lt (h.2 hz)
      have hcut := cut_preserves mb h.1 hq hfit
      unfold MicroBatcher.tick
      split
      · rename_i b mb2 heq
        have h2 : _ = mb2 := congrArg Prod.snd heq
        refine ⟨?_, ?_⟩
        · have hI := hcut.1
          rw [h2] at hI
          exact invCore_congr mb2 _ rfl rfl rfl rfl rfl rfl hI
        · intro h1s
          have hq2 : mb2.queue = [] := by
            rw [← congrArg MicroBatcher.queue h2]
            exact hcut.2
          show ((mb2.queue.length : Nat) : Int) < _
          rw [hq2]
          show ((0 : Nat) : Int) < _
          have hcfg : mb2.config = mb.config := by
            rw [← congrArg MicroBatcher.config h2]
            exact MicroBatcher.nextBatch_config mb
          rw [show (({ mb2 with processedLog := mb2.processedLog ++ [b] } :
            MicroBatcher)).config = mb2.config from rfl] at h1s
          rw [hcfg] at h1s ⊢
          omega
      · rename_i mb2 heq
        cases hcyc : listGetO mb.batches
            (mb.currentBatchIndex % mb.config.cacheLifespan.toNat) with
        | none =>
          rw [MicroBatcher.nextBatch_full_noevict mb hq hfit hcyc] at heq
          simp at heq
        | some cb =>
          rw [MicroBatcher.nextBatch_full_evict mb cb hq hfit hcyc] at heq
          simp at heq
    · have hz0 : mb.config.maxBatchSize = 0 := by
        obtain ⟨⟨_, _, hsz, _⟩, _⟩ := h
        omega
      unfold MicroBatcher.tick
      rw [MicroBatcher.nextBatch_size_zero mb hz0]
      exact h

theorem consistent_settle (mb : MicroBatcher) (batchId : String) (ok : Bool)
    (h : Consistent mb) : Consistent (mb.settle batchId ok) := by
  obtain ⟨⟨hdup, hN, hsz, hlenr, hqp, hring, hdom, hfr⟩, hbound⟩ := h
  unfold MicroBatcher.settle
  split
  · rename_i i heq
    split
    · rename_i b heq2
      split
      · rename_i hid
        have hilt : i < mb.batches.length := listGetO_isSome_lt _ _ _ heq2
        refine ⟨⟨hdup, hN, hsz, ?_, hqp, ?_, ?_, ?_⟩, hbound⟩
        · show (mb.batches.set _ _).length = _
          rw [List.length_set]
          exact hlenr
        · intro i' b' hb'
          by_cases hi : i' = i
          · subst hi
            rw [listGetO_set_self _ _ _ hilt] at hb'
            injection hb' with hb'
            subst hb'
            constructor
            · show mget mb.batchIdToBatchIndex b.batchId = some i'
              exact (hring i' b heq2).1
            · intro x hx
              exact (hring i' b heq2).2 x hx
          · rw [listGetO_set_ne _ _ _ _ (fun hh => hi hh.symm)] at hb'
            exact hring i' b' hb'
        · intro bid' i' hbid'
          obtain ⟨b', hgb', hbid2⟩ := hdom bid' i' hbid'
          by_cases hi : i' = i
          · subst hi
            rw [heq2] at hgb'
            injection hgb' with hgb'
            subst hgb'
            refine ⟨{ b with status := if ok then .RESOLVED else .REJECTED },
              listGetO_set_self _ _ _ hilt, hbid2⟩
          · exact ⟨b', by rw [listGetO_set_ne _ _ _ _ (fun hh => hi hh.symm)]; exact hgb', hbid2⟩
        · intro i' b' hb'
          by_cases hi : i' = i
          · subst hi
            rw [listGetO_set_self _ _ _ hilt] at hb'
            injection hb' with hb'
            subst hb'
            exact hfr i' b heq2
          · rw [listGetO_set_ne _ _ _ _ (fun hh => hi hh.symm)] at hb'
            exact hfr i' b' hb'
      · exact ⟨⟨hdup, hN, hsz, hlenr, hqp, hring, hdom, hfr⟩, hbound⟩
    · exact ⟨⟨hdup, hN, hsz, hlenr, hqp, hring, hdom, hfr⟩, hbound⟩
  · exact ⟨⟨hdup, hN, hsz, hlenr, hqp, hring, hdom, hfr⟩, hbound⟩

/-- C7 (amended: for engines with duplicate suppression on,
`allowDuplicates = false`, and a positive `cacheLifespan`; with
duplicates allowed the ring-key clause fails, see the counterexample):
every constructed engine satisfies the index-consistency invariant —
each queued message's key maps to the pending sentinel, each ring
batch's keys map to that batch's id, each indexed batch id resolves to
the slot actually holding that batch — and every operation (add, timer
flush, settle, start, stop) preserves it, so a slot overwrite removes
exactly the evicted batch's keys and id, no stale key or batch id ever
resolves to the wrong slot, and no queued message's key is removed
while it is still queued. -/
theorem c7_index_consistency :
    (∀ (p : MicroBatcherConfigParams) (mb0 : MicroBatcher), mkMicroBatcher p = .ok mb0 →
      mb0.config.allowDuplicates = false → 1 ≤ mb0.config.cacheLifespan → Consistent mb0) ∧
    (∀ (mb : MicroBatcher) (e : Ev) (mb' : MicroBatcher), Consistent mb → Step mb e mb' →
      Consistent mb') := by
  constructor
  · intro p mb0 hmk hdup hN
    obtain ⟨hq, hs2b, hb2i, _, hu, hbs, _, _, hsz, _⟩ := mkMicroBatcher_ok p mb0 hmk
    refine ⟨⟨hdup, hN, hsz, ?_, ?_, ?_, ?_, ?_⟩, ?_⟩
    · rw [hbs, List.length_replicate]
    · intro m hm
      rw [hq] at hm
      simp at hm
    · intro i b hb
      rw [hbs, listGetO_replicate_none] at hb
      exact Option.noConfusion hb
    · intro bid i hbid
      rw [hb2i] at hbid
      exact Option.noConfusion hbid
    · intro i b hb
      rw [hbs, listGetO_replicate_none] at hb
      exact Option.noConfusion hb
    · intro h1s
      rw [hq]
      show ((0 : Nat) : Int) < _
      omega
  · intro mb e mb' h hs
    cases hs with
    | add m => exact consistent_add mb m h
    | tick _ => exact consistent_tick mb h
    | startEv => exact h
    | stopBegin => exact h
    | stopFinish _ =>
      unfold MicroBatcher.stopFinish
      split
      · exact h
      · exact h
    | settle batchId ok => exact consistent_settle mb batchId ok h

/-- Witness for C7: a freshly constructed default engine satisfies the
invariant. -/
theorem c7_index_consistency_witness : Consistent (mbFromParams {}) :=
  c7_index_consistency.1 {} (mbFromParams {}) rfl rfl (by decide)

theorem getD_mem_flatten {α : Type} (l : List (List α)) (k : Nat) (x : α)
    (hk : k < l.length) (hx : x ∈ l.getD k []) : x ∈ l.flatten := by
  induction l generalizing k with
  | nil => simp at hk
  | cons a l ih =>
    cases k with
    | zero =>
      rw [List.flatten_cons]
      exact List.mem_append_left _ (by simpa using hx)
    | succ n =>
      rw [List.flatten_cons]
      exact List.mem_append_right _ (ih n (by simpa using hk) (by simpa using hx))

theorem flatten_keys_within (hf : Option (JSV → String)) : ∀ (bIn : List (List JSV)),
    (bIn.flatten.map (messageToKey hf)).Nodup →
    ∀ jb, ((bIn.getD jb []).map (messageToKey hf)).Nodup := by
  intro bIn
  induction bIn with
  | nil => intro _ jb; cases jb <;> simp
  | cons a l ih =>
    intro hnd jb
    rw [List.flatten_cons, List.map_append, List.nodup_append] at hnd
    cases jb with
    | zero => exact hnd.1
    | succ n => exact ih hnd.2.1 n

theorem flatten_keys_across (hf : Option (JSV → String)) : ∀ (bIn : List (List JSV)),
    (bIn.flatten.map (messageToKey hf)).Nodup →
    ∀ jb jb', jb < bIn.length → jb' < bIn.length → jb ≠ jb' →
      ∀ m ∈ bIn.getD jb [], ∀ m' ∈ bIn.getD jb' [],
        messageToKey hf m ≠ messageToKey hf m' := by
  intro bIn
  induction bIn with
  | nil => intro _ jb _ h; simp at h
  | cons a l ih =>
    intro hnd jb jb' hjb hjb' hne m hm m' hm' hk
    rw [List.flatten_cons, List.map_append, List.nodup_append] at hnd
    cases jb with
    | zero =>
      cases jb' with
      | zero => exact hne rfl
      | succ n' =>
        have hm'fl : m' ∈ l.flatten :=
          getD_mem_flatten l n' m' (by simpa using hjb') (by simpa using hm')
        exact hnd.2.2 (List.mem_map_of_mem _ (by simpa using hm))
          (by rw [hk]; exact List.mem_map_of_mem _ hm'fl)
    | succ n =>
      cases jb' with
      | zero =>
        have hmfl : m ∈ l.flatten :=
          getD_mem_flatten l n m (by simpa using hjb) (by simpa using hm)
        exact hnd.2.2 (List.mem_map_of_mem _ (by simpa using hm'))
          (by rw [← hk]; exact List.mem_map_of_mem _ hmfl)
      | succ n' =>
        exact ih hnd.2.1 n n' (by simpa using hjb) (by simpa using hjb')
          (fun hc => hne (by rw [hc])) m (by simpa using hm) m' (by simpa using hm') hk

theorem mod_ne_of_window (jb j N : Nat) (h1 : jb < j) (h2 : j < jb + N) :
    ¬ jb % N = j % N := by
  intro he
  have hdvd := (Nat.modEq_iff_dvd' (le_of_lt h1)).mp he
  have := Nat.le_of_dvd (by omega) hdvd
  omega

theorem sub_mod_self (j N : Nat) (h : N ≤ j) : (j - N) % N = j % N := by
  conv_rhs => rw [show j = (j - N) + N by omega]
  rw [Nat.add_mod_right]

theorem runState_step (hf : Option (JSV → String)) (s N : Nat) (bIn : List (List JSV))
    (j : Nat) (mb : MicroBatcher)
    (hrs : RunState hf s N bIn j mb)
    (hs1 : 1 ≤ s) (hN1 : 1 ≤ N)
    (hj : j < bIn.length)
    (hblen : (bIn.getD j []).length = s)
    (hnn : ∀ m ∈ bIn.flatten, m ≠ .null ∧ m ≠ .undef)
    (hnd : (bIn.flatten.map (messageToKey hf)).Nodup) :
    RunState hf s N bIn (j + 1) (mb.addAll (bIn.getD j [])).2 := by
  obtain ⟨hstart, hhash, hsize, hlife, hqueue, hctr, huuid, hlen,
    hs2b_live, hs2b_dead, hs2b_fresh, hb2i_live, hb2i_dom, hring_live, hring_new⟩ := hrs
  have htoNat : mb.config.cacheLifespan.toNat = N := by rw [hlife]; exact Int.toNat_natCast N
  have hbne : bIn.getD j [] ≠ [] := by
    intro hc; rw [hc] at hblen; simp at hblen; omega
  rcases List.eq_nil_or_concat (bIn.getD j []) with hcnil | ⟨init, mN, hcb⟩
  · exact absurd hcnil hbne
  rw [List.concat_eq_append] at hcb
  have hinitlen : init.length = s - 1 := by
    rw [hcb] at hblen
    simp only [List.length_append, List.length_cons, List.length_nil] at hblen
    omega
  have hinitsub : ∀ x ∈ init, x ∈ bIn.getD j [] := by
    intro x hx; rw [hcb]; exact List.mem_append_left _ hx
  have hmNmem : mN ∈ bIn.getD j [] := by rw [hcb]; exact List.mem_append_right _ (by simp)
  have hwithin := flatten_keys_within hf bIn hnd j
  have hacross := flatten_keys_across hf bIn hnd
  have hnnN := hnn mN (getD_mem_flatten bIn j mN hj hmNmem)
  have hq1 := MicroBatcher.addAll_queued init mb hstart
    (fun x hx => hnn x (getD_mem_flatten bIn j x hj (hinitsub x hx)))
    (fun x hx => by rw [hhash]; exact hs2b_fresh j le_rfl x (hinitsub x hx))
    (by rw [hhash]
        rw [hcb, List.map_append] at hwithin
        exact hwithin.of_append_left)
    (by rw [hqueue, hsize]
        simp only [List.length_nil, Nat.cast_zero, zero_add]
        omega)
  have hfinal : (mb.addAll (bIn.getD j [])).2 =
      (MicroBatcher.add
        { mb with queue := mb.queue ++ init
                  stringToBatchId := init.foldl
                    (fun mm x => mset mm (messageToKey mb.config.hashFn x) none)
                    mb.stringToBatchId
                  acceptedLog := mb.acceptedLog ++ init } mN).2 := by
    rw [hcb, MicroBatcher.addAll_append, hq1]
    rfl
  rw [hfinal]
  have hwithin2 := flatten_keys_within hf bIn hnd j
  have hdisj : ¬ ∃ x ∈ init, messageToKey hf x = messageToKey hf mN := by
    rintro ⟨x, hx, hkx⟩
    rw [hcb, List.map_append, List.nodup_append] at hwithin2
    exact hwithin2.2.2 (List.mem_map_of_mem _ hx) (by rw [hkx]; simp)
  have hfreshN : mget
      (init.foldl (fun mm x => mset mm (messageToKey mb.config.hashFn x) none)
        mb.stringToBatchId)
      (messageToKey mb.config.hashFn mN) = none := by
    rw [hhash, mget_foldl_mset, if_neg hdisj]
    exact hs2b_fresh j le_rfl mN hmNmem
  have hqlen : ((mb.queue ++ init).length : Int) + 1 = (s : Int) := by
    rw [hqueue]
    simp only [List.nil_append]
    rw [hinitlen]
    omega
  by_cases hjN : j < N
  · -- no eviction: the target slot has never been written
    have hcyc : listGetO mb.batches
        ((mb.currentBatchIndex % mb.config.cacheLifespan.toNat)) = none := by
      rw [hctr, htoNat, Nat.mod_eq_of_lt hjN]
      exact hring_new j hjN le_rfl
    rw [MicroBatcher.add_cut_noevict
      { mb with queue := mb.queue ++ init
                stringToBatchId := init.foldl
                  (fun mm x => mset mm (messageToKey mb.config.hashFn x) none)
                  mb.stringToBatchId
                acceptedLog := mb.acceptedLog ++ init }
      mN hstart hnnN.1 hnnN.2 (Or.inr hfreshN)
      (by show mb.config.maxBatchSize ≤ ((mb.queue ++ init).length : Int) + 1
          rw [hqlen]; exact le_of_eq hsize)
      (by show ((mb.queue ++ init).length : Int) + 1 ≤ mb.config.maxBatchSize
          rw [hqlen]; exact ge_of_eq hsize)
      hcyc]
    dsimp only
    rw [hqueue]
    simp only [List.nil_append]
    rw [hhash, hctr, huuid, htoNat, ← hcb]
    rw [show mset (init.foldl (fun mm x => mset mm (messageToKey hf x) none)
          mb.stringToBatchId) (messageToKey hf mN) none =
        (bIn.getD j []).foldl (fun mm x => mset mm (messageToKey hf x) none)
          mb.stringToBatchId from by rw [hcb, List.foldl_append]; rfl]
    refine ⟨hstart, hhash, hsize, hlife, rfl, rfl, rfl, ?_, ?_, ?_, ?_, ?_, ?_, ?_, ?_⟩
    · rw [List.length_set]; exact hlen
    · -- live keys
      intro jb hjb hlive m hm
      by_cases hjbj : jb = j
      · subst hjbj
        rw [mget_foldl_mset, if_pos ⟨m, hm, rfl⟩]
      · have hjblt : jb < j := by omega
        have hc1 : ¬ ∃ x ∈ bIn.getD j [], messageToKey hf x = messageToKey hf m := by
          rintro ⟨x, hx, hkx⟩
          exact hacross j jb hj (lt_trans hjblt hj) (fun hc => hjbj hc.symm) x hx m hm hkx
        rw [mget_foldl_mset, if_neg hc1, mget_foldl_mset, if_neg hc1]
        exact hs2b_live jb hjblt (by omega) m hm
    · -- dead keys: vacuous while j < N
      intro jb hdead
      omega
    · -- fresh keys
      intro jb hjb m hm
      by_cases hjble : jb < bIn.length
      · have hc1 : ¬ ∃ x ∈ bIn.getD j [], messageToKey hf x = messageToKey hf m := by
          rintro ⟨x, hx, hkx⟩
          exact hacross j jb hj hjble (by omega) x hx m hm hkx
        rw [mget_foldl_mset, if_neg hc1, mget_foldl_mset, if_neg hc1]
        exact hs2b_fresh jb (by omega) m hm
      · rw [List.getD_eq_default _ _ (by omega)] at hm
        simp at hm
    · -- live batch ids
      intro jb hjb hlive
      by_cases hjbj : jb = j
      · subst hjbj
        rw [mget_mset, if_pos rfl]
      · have hjblt : jb < j := by omega
        rw [mget_mset, if_neg (fun hc => hjbj (uuidv4_injective hc))]
        exact hb2i_live jb hjblt (by omega)
    · -- batch id domain
      intro bid i hbid
      rw [mget_mset] at hbid
      by_cases hb : bid = uuidv4 j
      · rw [if_pos hb] at hbid
        injection hbid with hbid
        exact ⟨j, by omega, by omega, hb, hbid.symm⟩
      · rw [if_neg hb] at hbid
        obtain ⟨jb, hjb, hl, hbid2, hi⟩ := hb2i_dom bid i hbid
        exact ⟨jb, by omega, by omega, hbid2, hi⟩
    · -- live ring slots
      intro jb hjb hlive
      by_cases hjbj : jb = j
      · subst hjbj
        rw [listGetO_set_self _ _ _ (by rw [hlen]; exact Nat.mod_lt _ (by omega))]
      · have hjblt : jb < j := by omega
        rw [listGetO_set_ne _ _ _ _
          (fun hh => mod_ne_of_window jb j N hjblt (by omega) hh.symm)]
        exact hring_live jb hjblt (by omega)
    · -- never-written slots
      intro p hp hjp
      rw [listGetO_set_ne _ _ _ _ (by rw [Nat.mod_eq_of_lt hjN]; omega)]
      exact hring_new p hp (by omega)
  · -- eviction of batch j - N
    have hjN' : N ≤ j := by omega
    have hcyc : listGetO mb.batches
        ((mb.currentBatchIndex % mb.config.cacheLifespan.toNat)) =
        some ⟨bIn.getD (j - N) [], uuidv4 (j - N), .BATCHED⟩ := by
      rw [hctr, htoNat, ← sub_mod_self j N hjN']
      exact hring_live (j - N) (by omega) (by omega)
    rw [MicroBatcher.add_cut_evict
      { mb with queue := mb.queue ++ init
                stringToBatchId := init.foldl
                  (fun mm x => mset mm (messageToKey mb.config.hashFn x) none)
                  mb.stringToBatchId
                acceptedLog := mb.acceptedLog ++ init }
      mN ⟨bIn.getD (j - N) [], uuidv4 (j - N), .BATCHED⟩
      hstart hnnN.1 hnnN.2 (Or.inr hfreshN)
      (by show mb.config.maxBatchSize ≤ ((mb.queue ++ init).length : Int) + 1
          rw [hqlen]; exact le_of_eq hsize)
      (by show ((mb.queue ++ init).length : Int) + 1 ≤ mb.config.maxBatchSize
          rw [hqlen]; exact ge_of_eq hsize)
      hcyc]
    dsimp only
    rw [hqueue]
    simp only [List.nil_append]
    rw [hhash, hctr, huuid, htoNat, ← hcb]
    rw [show mset (init.foldl (fun mm x => mset mm (messageToKey hf x) none)
          mb.stringToBatchId) (messageToKey hf mN) none =
        (bIn.getD j []).foldl (fun mm x => mset mm (messageToKey hf x) none)
          mb.stringToBatchId from by rw [hcb, List.foldl_append]; rfl]
    have hsubne : ¬ j - N = j := by omega
    have hsubmem : j - N < bIn.length := by omega
    refine ⟨hstart, hhash, hsize, hlife, rfl, rfl, rfl, ?_, ?_, ?_, ?_, ?_, ?_, ?_, ?_⟩
    · rw [List.length_set]; exact hlen
    · -- live keys
      intro jb hjb hlive m hm
      by_cases hjbj : jb = j
      · subst hjbj
        rw [mget_foldl_mset, if_pos ⟨m, hm, rfl⟩]
      · have hjblt : jb < j := by omega
        have hjbne_sub : ¬ j - N = jb := by omega
        have hc1 : ¬ ∃ x ∈ bIn.getD j [], messageToKey hf x = messageToKey hf m := by
          rintro ⟨x, hx, hkx⟩
          exact hacross j jb hj (lt_trans hjblt hj) (fun hc => hjbj hc.symm) x hx m hm hkx
        have hc2 : ¬ ∃ x ∈ bIn.getD (j - N) [], messageToKey hf x = messageToKey hf m := by
          rintro ⟨x, hx, hkx⟩
          exact hacross (j - N) jb hsubmem (lt_trans hjblt hj) hjbne_sub x hx m hm hkx
        rw [mget_foldl_mset, if_neg hc1, mget_foldl_mdelete, if_neg hc2,
          mget_foldl_mset, if_neg hc1]
        exact hs2b_live jb hjblt (by omega) m hm
    · -- dead keys
      intro jb hdead m hm
      have hjble : jb < bIn.length := by omega
      have hjbj : ¬ jb = j := by omega
      have hc1 : ¬ ∃ x ∈ bIn.getD j [], messageToKey hf x = messageToKey hf m := by
        rintro ⟨x, hx, hkx⟩
        exact hacross j jb hj hjble (fun hc => hjbj hc.symm) x hx m hm hkx
      rw [mget_foldl_mset, if_neg hc1]
      by_cases hjbsub : jb = j - N
      · subst hjbsub
        rw [mget_foldl_mdelete, if_pos ⟨m, hm, rfl⟩]
      · have hc2 : ¬ ∃ x ∈ bIn.getD (j - N) [], messageToKey hf x = messageToKey hf m := by
          rintro ⟨x, hx, hkx⟩
          exact hacross (j - N) jb hsubmem hjble (fun hc => hjbsub hc.symm) x hx m hm hkx
        rw [mget_foldl_mdelete, if_neg hc2, mget_foldl_mset, if_neg hc1]
        exact hs2b_dead jb (by omega) m hm
    · -- fresh keys
      intro jb hjb m hm
      by_cases hjble : jb < bIn.length
      · have hc1 : ¬ ∃ x ∈ bIn.getD j [], messageToKey hf x = messageToKey hf m := by
          rintro ⟨x, hx, hkx⟩
          exact hacross j jb hj hjble (by omega) x hx m hm hkx
        have hc2 : ¬ ∃ x ∈ bIn.getD (j - N) [], messageToKey hf x = messageToKey hf m := by
          rintro ⟨x, hx, hkx⟩
          exact hacross (j - N) jb hsubmem hjble (by omega) x hx m hm hkx
        rw [mget_foldl_mset, if_neg hc1, mget_foldl_mdelete, if_neg hc2,
          mget_foldl_mset, if_neg hc1]
        exact hs2b_fresh jb (by omega) m hm
      · rw [List.getD_eq_default _ _ (by omega)] at hm
        simp at hm
    · -- live batch ids
      intro jb hjb hlive
      by_cases hjbj : jb = j
      · subst hjbj
        rw [mget_mset, if_pos rfl]
      · have hjblt : jb < j := by omega
        rw [mget_mset, if_neg (fun hc => hjbj (uuidv4_injective hc)),
          mget_mdelete, if_neg (fun hc => (by omega : ¬ jb = j - N) (uuidv4_injective hc))]
        exact hb2i_live jb hjblt (by omega)
    · -- batch id domain
      intro bid i hbid
      rw [mget_mset] at hbid
      by_cases hb : bid = uuidv4 j
      · rw [if_pos hb] at hbid
        injection hbid with hbid
        exact ⟨j, by omega, by omega, hb, hbid.symm⟩
      · rw [if_neg hb, mget_mdelete] at hbid
        by_cases hbsub : bid = uuidv4 (j - N)
        · rw [if_pos hbsub] at hbid
          exact Option.noConfusion hbid
        · rw [if_neg hbsub] at hbid
          obtain ⟨jb, hjb, hl, hbid2, hi⟩ := hb2i_dom bid i hbid
          have : ¬ jb = j - N := fun hc => hbsub (by rw [hbid2, hc])
          exact ⟨jb, by omega, by omega, hbid2, hi⟩
    · -- live ring slots
      intro jb hjb hlive
      by_cases hjbj : jb = j
      · subst hjbj
        rw [listGetO_set_self _ _ _ (by rw [hlen]; exact Nat.mod_lt _ (by omega))]
      · have hjblt : jb < j := by omega
        rw [listGetO_set_ne _ _ _ _
          (fun hh => mod_ne_of_window jb j N hjblt (by omega) hh.symm)]
        exact hring_live jb hjblt (by omega)
    · -- never-written slots: vacuous once j ≥ N
      intro p hp hjp
      omega

theorem runState_run (hf : Option (JSV → String)) (s N : Nat) (bIn : List (List JSV))
    (hs1 : 1 ≤ s) (hN1 : 1 ≤ N)
    (hbs : ∀ bl ∈ bIn, bl.length = s)
    (hnn : ∀ m ∈ bIn.flatten, m ≠ .null ∧ m ≠ .undef)
    (hnd : (bIn.flatten.map (messageToKey hf)).Nodup)
    (mb0 : MicroBatcher) (h0 : RunState hf s N bIn 0 mb0) :
    ∀ j, j ≤ bIn.length → RunState hf s N bIn j (mb0.addAll ((bIn.take j).flatten)).2 := by
  intro j
  induction j with
  | zero => intro _; exact h0
  | succ n ih =>
    intro hle
    have hn : n < bIn.length := by omega
    have hmem : bIn.getD n [] ∈ bIn := by
      rw [List.getD_eq_getElem?_getD, List.getElem?_eq_getElem hn]
      exact List.getElem_mem ..
    have hstep := runState_step hf s N bIn n _ (ih (by omega)) hs1 hN1 hn
      (hbs _ hmem) hnn hnd
    have htake : (bIn.take (n + 1)).flatten = (bIn.take n).flatten ++ bIn.getD n [] := by
      rw [List.take_succ, List.flatten_append]
      congr 1
      rw [List.getElem?_eq_getElem hn, List.getD_eq_getElem?_getD, List.getElem?_eq_getElem hn]
      simp
    rw [htake, MicroBatcher.addAll_append]
    exact hstep

theorem runState_init (p : MicroBatcherConfigParams) (mb0 : MicroBatcher)
    (s N : Nat) (bIn : List (List JSV))
    (hmk : mkMicroBatcher p = .ok mb0)
    (hstart : mb0.config.start = true)
    (hsz : mb0.config.maxBatchSize = (s : Int))
    (hN : mb0.config.cacheLifespan = (N : Int)) :
    RunState mb0.config.hashFn s N bIn 0 mb0 := by
  obtain ⟨hq, hs2b, hb2i, hctr, huuid, hbat, _, _, _, _, _, _⟩ := mkMicroBatcher_ok p mb0 hmk
  refine ⟨hstart, rfl, hsz, hN, hq, hctr, huuid, ?_, ?_, ?_, ?_, ?_, ?_, ?_, ?_⟩
  · rw [hbat, List.length_replicate, hN]; exact Int.toNat_natCast N
  · intro jb hjb _; omega
  · intro jb hjb; omega
  · intro jb _ m _; rw [hs2b]; rfl
  · intro jb hjb; omega
  · intro bid i hbid; rw [hb2i] at hbid; exact Option.noConfusion hbid
  · intro jb hjb; omega
  · intro p hp _
    rw [hbat]
    exact listGetO_replicate_none _ _

/-- C2: for every engine with `cacheLifespan = N` (and size-triggered
flushes: `maxBatchSize = s ≥ 1`, pairwise-distinct accepted messages fed
in `B + N + 1` full batches), after `N` further batches have been cut
beyond batch `B`: (1) every message of batch `B` has status
NOTFOUND/null; (2) every truthy message of the most recently cut batch
`B + N` returns that batch's real id and status (BATCHED) — falsy
messages are excluded, as `status`'s `!message` guard hides them
(claims C3/C10); (3) the last `N` batches sit whole in ring slot
`index % N` with both indices intact — eviction is FIFO by whole batch,
never partial; (4) every batch up to `B` is fully evicted from both
indices; (5) at most `N` batch ids are queryable via `batchStatus`. -/
theorem c2_cache_eviction_fifo (p : MicroBatcherConfigParams) (mb0 mbF : MicroBatcher)
    (s N B : Nat) (bIn : List (List JSV))
    (hmk : mkMicroBatcher p = .ok mb0)
    (hstart : mb0.config.start = true)
    (hsz : mb0.config.maxBatchSize = (s : Int)) (hs1 : 1 ≤ s)
    (hN : mb0.config.cacheLifespan = (N : Int)) (hN1 : 1 ≤ N)
    (hlen : bIn.length = B + N + 1)
    (hbs : ∀ bl ∈ bIn, bl.length = s)
    (hnn : ∀ m ∈ bIn.flatten, m ≠ .null ∧ m ≠ .undef)
    (hnd : (bIn.flatten.map (messageToKey mb0.config.hashFn)).Nodup)
    (hmbF : mbF = (mb0.addAll bIn.flatten).2) :
    (∀ m ∈ bIn.getD B [], mbF.status m = ⟨none, .NOTFOUND⟩) ∧
    (∀ m ∈ bIn.getD (B + N) [], m.truthy = true →
      mbF.status m = ⟨some (uuidv4 (B + N)), .BATCHED⟩) ∧
    (∀ jb, B + 1 ≤ jb → jb ≤ B + N →
      mget mbF.batchIdToBatchIndex (uuidv4 jb) = some (jb % N) ∧
      listGetO mbF.batches (jb % N) = some ⟨bIn.getD jb [], uuidv4 jb, .BATCHED⟩ ∧
      ∀ m ∈ bIn.getD jb [],
        mget mbF.stringToBatchId (messageToKey mb0.config.hashFn m) =
          some (some (uuidv4 jb))) ∧
    (∀ jb, jb ≤ B →
      mget mbF.batchIdToBatchIndex (uuidv4 jb) = none ∧
      ∀ m ∈ bIn.getD jb [],
        mget mbF.stringToBatchId (messageToKey mb0.config.hashFn m) = none) ∧
    (∀ bid, (mbF.batchStatus bid).status ≠ .NOTFOUND →
      bid ∈ (List.range N).map (fun i => uuidv4 (B + 1 + i))) := by
  subst hmbF
  have h0 := runState_init p mb0 s N bIn hmk hstart hsz hN
  have hrun := runState_run mb0.config.hashFn s N bIn hs1 hN1 hbs hnn hnd mb0 h0
    bIn.length le_rfl
  rw [List.take_length] at hrun
  rw [hlen] at hrun
  obtain ⟨_, hhashF, _, _, _, _, _, _, hs2bL, hs2bD, _, hb2iL, hb2iD, hringL, _⟩ := hrun
  refine ⟨?_, ?_, ?_, ?_, ?_⟩
  · intro m hm
    have hkey := hs2bD B (by omega) m hm
    cases hb : m.truthy with
    | false => simp [MicroBatcher.status, hb]
    | true => simp [MicroBatcher.status, hb, hhashF, hkey]
  · intro m hm ht
    have hkey := hs2bL (B + N) (by omega) (by omega) m hm
    have hb2i := hb2iL (B + N) (by omega) (by omega)
    have hring := hringL (B + N) (by omega) (by omega)
    rw [Nat.add_mod_right] at hb2i hring
    simp [MicroBatcher.status, ht, hhashF, hkey, hb2i, hring]
  · intro jb h1 h2
    exact ⟨hb2iL jb (by omega) (by omega), hringL jb (by omega) (by omega),
      fun m hm => hs2bL jb (by omega) (by omega) m hm⟩
  · intro jb hjb
    constructor
    · rcases hv : mget (mb0.addAll bIn.flatten).2.batchIdToBatchIndex (uuidv4 jb) with _ | i
      · rfl
      · obtain ⟨jb2, hlt, hge, hbid, _⟩ := hb2iD _ i hv
        have heq : jb = jb2 := uuidv4_injective hbid
        omega
    · intro m hm
      exact hs2bD jb (by omega) m hm
  · intro bid hne
    by_cases hbe : bid = ""
    · exact absurd (show ((mb0.addAll bIn.flatten).2.batchStatus bid).status = .NOTFOUND by
        simp [MicroBatcher.batchStatus, hbe]) hne
    rcases hv : mget (mb0.addAll bIn.flatten).2.batchIdToBatchIndex bid with _ | i
    · exact absurd (show ((mb0.addAll bIn.flatten).2.batchStatus bid).status = .NOTFOUND by
        simp [MicroBatcher.batchStatus, hbe, hv]) hne
    · obtain ⟨jb, hlt, hge, hbid, _⟩ := hb2iD bid i hv
      refine List.mem_map.mpr ⟨jb - (B + 1), List.mem_range.mpr (by omega), ?_⟩
      show uuidv4 (B + 1 + (jb - (B + 1))) = bid
      rw [hbid]
      exact congrArg uuidv4 (by omega)

theorem c2_cache_eviction_fifo_witness :
    (∀ m ∈ ([[JSV.str "a"], [JSV.str "b"]] : List (List JSV)).getD 0 [],
      MicroBatcher.status
        ((mbFromParams { maxBatchSize := some 1, cacheLifespan := some 1 }).addAll
          ([[JSV.str "a"], [JSV.str "b"]] : List (List JSV)).flatten).2 m =
        ⟨none, .NOTFOUND⟩) ∧
    (∀ m ∈ ([[JSV.str "a"], [JSV.str "b"]] : List (List JSV)).getD 1 [], m.truthy = true →
      MicroBatcher.status
        ((mbFromParams { maxBatchSize := some 1, cacheLifespan := some 1 }).addAll
          ([[JSV.str "a"], [JSV.str "b"]] : List (List JSV)).flatten).2 m =
        ⟨some (uuidv4 1), .BATCHED⟩) ∧
    (∀ jb, 1 ≤ jb → jb ≤ 1 →
      mget ((mbFromParams { maxBatchSize := some 1, cacheLifespan := some 1 }).addAll
          ([[JSV.str "a"], [JSV.str "b"]] : List (List JSV)).flatten).2.batchIdToBatchIndex
          (uuidv4 jb) = some (jb % 1) ∧
      listGetO ((mbFromParams { maxBatchSize := some 1, cacheLifespan := some 1 }).addAll
          ([[JSV.str "a"], [JSV.str "b"]] : List (List JSV)).flatten).2.batches (jb % 1) =
        some ⟨([[JSV.str "a"], [JSV.str "b"]] : List (List JSV)).getD jb [],
          uuidv4 jb, .BATCHED⟩ ∧
      ∀ m ∈ ([[JSV.str "a"], [JSV.str "b"]] : List (List JSV)).getD jb [],
        mget ((mbFromParams { maxBatchSize := some 1, cacheLifespan := some 1 }).addAll
            ([[JSV.str "a"], [JSV.str "b"]] : List (List JSV)).flatten).2.stringToBatchId
            (messageToKey (mbFromParams
              { maxBatchSize := some 1, cacheLifespan := some 1 }).config.hashFn m) =
          some (some (uuidv4 jb))) ∧
    (∀ jb, jb ≤ 0 →
      mget ((mbFromParams { maxBatchSize := some 1, cacheLifespan := some 1 }).addAll
          ([[JSV.str "a"], [JSV.str "b"]] : List (List JSV)).flatten).2.batchIdToBatchIndex
          (uuidv4 jb) = none ∧
      ∀ m ∈ ([[JSV.str "a"], [JSV.str "b"]] : List (List JSV)).getD jb [],
        mget ((mbFromParams { maxBatchSize := some 1, cacheLifespan := some 1 }).addAll
            ([[JSV.str "a"], [JSV.str "b"]] : List (List JSV)).flatten).2.stringToBatchId
            (messageToKey (mbFromParams
              { maxBatchSize := some 1, cacheLifespan := some 1 }).config.hashFn m) =
          none) ∧
    (∀ bid,
      (MicroBatcher.batchStatus
        ((mbFromParams { maxBatchSize := some 1, cacheLifespan := some 1 }).addAll
          ([[JSV.str "a"], [JSV.str "b"]] : List (List JSV)).flatten).2 bid).status ≠
          .NOTFOUND →
      bid ∈ (List.range 1).map (fun i => uuidv4 (1 + i))) :=
  c2_cache_eviction_fifo { maxBatchSize := some 1, cacheLifespan := some 1 }
    (mbFromParams { maxBatchSize := some 1, cacheLifespan := some 1 })
    ((mbFromParams { maxBatchSize := some 1, cacheLifespan := some 1 }).addAll
      ([[JSV.str "a"], [JSV.str "b"]] : List (List JSV)).flatten).2
    1 1 0 [[JSV.str "a"], [JSV.str "b"]]
    rfl rfl rfl (by decide) rfl (by decide) rfl
    (by decide) (by decide) (by decide) rfl

/-- C2 as literally stated is false for falsy messages: with
`maxBatchSize = 1`, `cacheLifespan = 2`, adding the message `0` cuts a
batch that is the most recently cut one and still sits whole in ring
slot 0 with status BATCHED, yet `status(0)` returns NOTFOUND/null — the
`!message` guard hides live batches behind falsy messages, so "the
messages of the most recently cut batch return that batch's real status
and id" needs the truthiness proviso. -/
theorem c2_cache_eviction_fifo_cex :
    listGetO (((mbFromParams { maxBatchSize := some 1, cacheLifespan := some 2 }).add
        (.num 0)).2).batches 0 = some ⟨[.num 0], uuidv4 0, .BATCHED⟩ ∧
    (((mbFromParams { maxBatchSize := some 1, cacheLifespan := some 2 }).add
        (.num 0)).2).status (.num 0) = ⟨none, .NOTFOUND⟩ :=
  ⟨rfl, rfl⟩
